import Mathlib

/-!
Verification of the `objwalker` traversal engine (github.com/rekby/objwalker).

The repository holds two variants of the walker:
* the current variant (`objwalker.go`, first file): `walkerState` with a
  per-`Walk` visited table, optional unsafe address reading and a startup
  self-check (`checkValue`);
* a historical variant (second file in `objwalker.go`): a `Walker` object
  holding the visited table itself, with `IsFlat` / `IsStructField` /
  `InternalStructSize` descriptor fields.

Both are shallowly embedded below over a common model of Go values seen
through `reflect`.  The embedding of the current variant lives in namespace
`OW`, the historical variant in namespace `OW1`.
-/

/-! ## Model of Go values as seen through `reflect` -/

/-- Memory address of a value's storage; `0` models the nil/zero `unsafe.Pointer`. -/
abbrev Addr := Nat

/-- Identifier of a static Go type (`reflect.Type` modelled by an id). -/
abbrev TypeId := Nat

/-- Model of a Go value reachable by the walker.  Every constructor carries the
static type id and the address of the value's backing storage (the address the
runtime's internal `reflect.Value.ptr` field points at).  Composite values
carry their children inline except pointers, whose pointee is found in a heap,
which is what makes cyclic structures expressible. -/
inductive RVal : Type where
  /-- a value of one of the flat kinds: Bool, Int..., Uintptr, Float, Complex, UnsafePointer -/
  | scalar (ty : TypeId) (addr : Addr)
  /-- a string; `dataPtr` is the address of the byte buffer, `len` its length -/
  | strv (ty : TypeId) (addr : Addr) (dataPtr : Addr) (len : Nat)
  /-- a channel value -/
  | chanv (ty : TypeId) (addr : Addr)
  /-- a function value -/
  | funcv (ty : TypeId) (addr : Addr)
  /-- an array with its elements in index order -/
  | arr (ty : TypeId) (addr : Addr) (elems : List RVal)
  /-- a struct with its fields in declared order -/
  | strct (ty : TypeId) (addr : Addr) (fields : List RVal)
  /-- a slice with its elements in index order -/
  | slicev (ty : TypeId) (addr : Addr) (elems : List RVal)
  /-- a map together with its entries in the order the iterator exposes them -/
  | mapv (ty : TypeId) (addr : Addr) (isNil : Bool) (entries : List (RVal × RVal))
  /-- a pointer: `target` is the pointee's heap address, `none` for a nil pointer -/
  | ptrv (ty : TypeId) (addr : Addr) (target : Option Addr)
  /-- an interface: `elem` is the dynamic value boxed inside, `none` for a nil interface -/
  | intfv (ty : TypeId) (addr : Addr) (elem : Option RVal)
  /-- the invalid reflect value -/
  | invalidv
  /-- a value of a kind the walker does not recognise -/
  | othrv (ty : TypeId) (addr : Addr)

/-- Static type of a value (`Value.Type()`); the invalid value gets a dummy id,
the walker never asks for its type. -/
def RVal.ty : RVal → TypeId
  | .scalar t _ => t
  | .strv t _ _ _ => t
  | .chanv t _ => t
  | .funcv t _ => t
  | .arr t _ _ => t
  | .strct t _ _ => t
  | .slicev t _ _ => t
  | .mapv t _ _ _ => t
  | .ptrv t _ _ => t
  | .intfv t _ _ => t
  | .invalidv => 0
  | .othrv t _ => t

/-- Address of the value's backing storage (the runtime-internal `Value.ptr`). -/
def RVal.addr : RVal → Addr
  | .scalar _ a => a
  | .strv _ a _ _ => a
  | .chanv _ a => a
  | .funcv _ a => a
  | .arr _ a _ => a
  | .strct _ a _ => a
  | .slicev _ a _ => a
  | .mapv _ a _ _ => a
  | .ptrv _ a _ => a
  | .intfv _ a _ => a
  | .invalidv => 0
  | .othrv _ a => a

/-- Runtime kind of a value (`Value.Kind()`), at the granularity the two
walker variants dispatch on: all flat kinds are collapsed into `flat`. -/
inductive RKind : Type where
  | invalid
  | array
  | interface_
  | ptr
  | map_
  | slice
  | chan_
  | func_
  | string_
  | flat
  | struct_
  | other
deriving DecidableEq, Repr

/-- Kind of a modelled value. -/
def RVal.kind : RVal → RKind
  | .scalar _ _ => .flat
  | .strv _ _ _ _ => .string_
  | .chanv _ _ => .chan_
  | .funcv _ _ => .func_
  | .arr _ _ _ => .array
  | .strct _ _ _ => .struct_
  | .slicev _ _ _ => .slice
  | .mapv _ _ _ _ => .map_
  | .ptrv _ _ _ => .ptr
  | .intfv _ _ _ => .interface_
  | .invalidv => .invalid
  | .othrv _ _ => .other

/-- A `reflect.Value`: the value payload together with its addressability flag
(`Value.CanAddr()`), which in Go is a property of how the value was reached,
not of the value itself. -/
structure RefVal : Type where
  val : RVal
  canAddr : Bool

/-- The heap: pointer targets, addressed by `Addr`. -/
abbrev Heap := List (Addr × RVal)

/-- Elements of an array or slice value (`Value.Len` / `Value.Index`). -/
def RVal.arrElems : RVal → List RVal
  | .arr _ _ es => es
  | .slicev _ _ es => es
  | _ => []

/-- Entries of a map value in iteration order (`Value.MapRange`). -/
def RVal.mapEntries : RVal → List (RVal × RVal)
  | .mapv _ _ _ es => es
  | _ => []

/-- Fields of a struct value in declared order (`Value.NumField` / `Value.Field`). -/
def RVal.structFields : RVal → List RVal
  | .strct _ _ fs => fs
  | _ => []

/-- Nil check for a map value (`Value.IsNil()` on a map). -/
def RVal.mapIsNil : RVal → Bool
  | .mapv _ _ b _ => b
  | _ => true

/-- Nil check for pointer and interface values (`Value.IsNil()`). -/
def RVal.ptrIsNil : RVal → Bool
  | .ptrv _ _ t => t.isNone
  | .intfv _ _ e => e.isNone
  | _ => true

/-- Dereference of a non-nil pointer or interface (`Value.Elem()`): a pointer's
pointee is looked up in the heap and is addressable; an interface's dynamic
value is the boxed copy and is not addressable.  A dangling pointer address
(never producible by Go) is treated like nil. -/
def ptrElem (heap : Heap) : RVal → Option RefVal
  | .ptrv _ _ (some a) => (List.lookup a heap).map (fun v => ⟨v, true⟩)
  | .intfv _ _ (some e) => some ⟨e, false⟩
  | _ => none

/-! ## Errors and callbacks -/

/-- Model of the error values the walker and callbacks exchange.
`skip` is `ErrSkip`, `invalidKind` is `errInvalidKind`, `unknownKind` is the
`fmt.Errorf`-wrapped `ErrUnknownKind`, `badInternalReflectValue` is
`ErrBadInternalReflectValueDetected`, and `cb code` is an arbitrary error
produced by the user callback, identified by a code. -/
inductive WErr : Type where
  | skip
  | invalidKind
  | unknownKind (k : RKind)
  | badInternalReflectValue
  | cb (code : Nat)
deriving DecidableEq, Repr

namespace OW

/-- Settings of the current-variant `Walker` (the callback is modelled as a
separate function argument below). -/
structure Walker : Type where
  LoopProtection : Bool
  UnsafeReadDirectPtr : Bool

/-- the walker produced by `New`: loop protection on, unsafe reading off -/
def New : Walker := { LoopProtection := true, UnsafeReadDirectPtr := false }

/-- `WithLoopProtection` setter -/
def Walker.WithLoopProtection (w : Walker) (val : Bool) : Walker :=
  { w with LoopProtection := val }

/-- `WithUnsafeReadDirectPtr` setter -/
def Walker.WithUnsafeReadDirectPtr (w : Walker) (val : Bool) : Walker :=
  { w with UnsafeReadDirectPtr := val }

/-- The `WalkInfo` descriptor of the current variant (the `Parent` link and
the mutation-oriented fields of `reflect.Value` are not modelled). -/
structure WalkInfo : Type where
  value : RefVal
  DirectPointer : Addr
  IsVisited : Bool
  isMapKey : Bool
  isMapValue : Bool

/-- A user callback: a deterministic state machine over callback-private state
`σ`, returning the next state and an optional error (`none` = nil error). -/
def Cb (σ : Type) : Type := σ → WalkInfo → σ × Option WErr

/-- State threaded through one walk: the callback's private state, the
visited table (flattening Go's `map[unsafe.Pointer]map[reflect.Type]empty`
into a list of (address, type) pairs with set semantics), and a ghost trace
recording each descriptor in the order it is passed to the callback. -/
structure WState (σ : Type) : Type where
  cbState : σ
  visited : List (Addr × TypeId)
  trace : List WalkInfo

/-- Result of a walker call: `none` when the modelling fuel ran out (the Go
code diverges), otherwise the final state and the returned error. -/
def Res (σ : Type) : Type := Option (WState σ × Option WErr)

/-- `getDirectPointer`: under `UnsafeReadDirectPtr` read the internal
`Value.ptr` directly; otherwise use `UnsafeAddr` when addressable, else null.
On the supported runtime the internal pointer and `UnsafeAddr` agree (that is
exactly what `checkValue` verifies), so both read `RVal.addr`. -/
def getDirectPointer (w : Walker) (canAddr : Bool) (v : RVal) : Addr :=
  if w.UnsafeReadDirectPtr then v.addr
  else if canAddr then v.addr
  else 0

/-- `newWalkerInfo`: build the descriptor for a value; the direct pointer is
only computed at all when `Value.CanAddr()` holds. -/
def newWalkerInfo (w : Walker) (v : RefVal) : WalkInfo :=
  { value := v
    DirectPointer := if v.canAddr then getDirectPointer w v.canAddr v.val else 0
    IsVisited := false
    isMapKey := false
    isMapValue := false }

/-- Invoke the callback on a descriptor, recording the descriptor in the ghost
trace.  Models `state.callback(info)` call sites. -/
def callCb {σ : Type} (cb : Cb σ) (st : WState σ) (info : WalkInfo) :
    WState σ × Option WErr :=
  let r := cb st.cbState info
  ({ st with cbState := r.1, trace := st.trace ++ [info] }, r.2)

/-- `loopDetector`: for a non-null direct pointer, flag the descriptor as
visited when its (address, static type) pair is already in the table,
otherwise record the pair. -/
def loopDetector (visited : List (Addr × TypeId)) (info : WalkInfo) :
    WalkInfo × List (Addr × TypeId) :=
  if info.DirectPointer ≠ 0 then
    let t := info.value.val.ty
    if (info.DirectPointer, t) ∈ visited then
      ({ info with IsVisited := true }, visited)
    else
      (info, (info.DirectPointer, t) :: visited)
  else (info, visited)

/-- Run a loop body over a list, stopping at the first error or fuel
exhaustion; models the `for ... { if err := ...; err != nil { return err } }`
loops of the kind handlers. -/
def runList {σ α : Type} (step : α → WState σ → Res σ) :
    List α → WState σ → Res σ
  | [], st => some (st, none)
  | x :: xs, st =>
    match step x st with
    | none => none
    | some (st', some e) => some (st', some e)
    | some (st', none) => runList step xs st'

/-- `walkSimple`: leaf handler, just the callback (its error, including
`ErrSkip`, is returned as is). -/
def walkSimple {σ : Type} (cb : Cb σ) (info : WalkInfo) (st : WState σ) : Res σ :=
  let r := callCb cb st info
  some (r.1, r.2)

/-- `walkArray`: callback (catching skip), then the elements in index order. -/
def walkArray {σ : Type} (recur : WalkInfo → WState σ → Res σ) (w : Walker)
    (cb : Cb σ) (info : WalkInfo) (st : WState σ) : Res σ :=
  match callCb cb st info with
  | (st', some e) => if e = .skip then some (st', none) else some (st', some e)
  | (st', none) =>
    runList (fun item st => recur (newWalkerInfo w ⟨item, info.value.canAddr⟩) st)
      info.value.val.arrElems st'

/-- `walkPtr` (shared by pointers and interfaces): callback (catching skip),
then the pointee unless nil. -/
def walkPtr {σ : Type} (recur : WalkInfo → WState σ → Res σ) (w : Walker)
    (cb : Cb σ) (heap : Heap) (info : WalkInfo) (st : WState σ) : Res σ :=
  match callCb cb st info with
  | (st', some e) => if e = .skip then some (st', none) else some (st', some e)
  | (st', none) =>
    if info.value.val.ptrIsNil then some (st', none)
    else
      match ptrElem heap info.value.val with
      | some elemRef => recur (newWalkerInfo w elemRef) st'
      | none => some (st', none)

/-- `walkMap`: callback (catching skip), nil check, then each entry: the key
(whose skip suppresses that entry's value) followed by the value. -/
def walkMap {σ : Type} (recur : WalkInfo → WState σ → Res σ) (w : Walker)
    (cb : Cb σ) (info : WalkInfo) (st : WState σ) : Res σ :=
  match callCb cb st info with
  | (st', some e) => if e = .skip then some (st', none) else some (st', some e)
  | (st', none) =>
    if info.value.val.mapIsNil then some (st', none)
    else
      runList (fun kv st =>
          let keyInfo := { newWalkerInfo w ⟨kv.1, false⟩ with isMapKey := true }
          match recur keyInfo st with
          | none => none
          | some (st₁, some e) =>
            if e = .skip then some (st₁, none) else some (st₁, some e)
          | some (st₁, none) =>
            let valInfo := { newWalkerInfo w ⟨kv.2, false⟩ with isMapValue := true }
            recur valInfo st₁)
        info.value.val.mapEntries st'

/-- `walkSlice`: callback (catching skip), then the elements, which are
addressable regardless of how the slice header was reached. -/
def walkSlice {σ : Type} (recur : WalkInfo → WState σ → Res σ) (w : Walker)
    (cb : Cb σ) (info : WalkInfo) (st : WState σ) : Res σ :=
  match callCb cb st info with
  | (st', some e) => if e = .skip then some (st', none) else some (st', some e)
  | (st', none) =>
    runList (fun item st => recur (newWalkerInfo w ⟨item, true⟩) st)
      info.value.val.arrElems st'

/-- `walkStruct`: callback (catching skip), then the fields in declared order. -/
def walkStruct {σ : Type} (recur : WalkInfo → WState σ → Res σ) (w : Walker)
    (cb : Cb σ) (info : WalkInfo) (st : WState σ) : Res σ :=
  match callCb cb st info with
  | (st', some e) => if e = .skip then some (st', none) else some (st', some e)
  | (st', none) =>
    runList (fun f st => recur (newWalkerInfo w ⟨f, info.value.canAddr⟩) st)
      info.value.val.structFields st'

/-- `kindRoute`: dispatch a descriptor on its value's kind. -/
def kindRoute {σ : Type} (recur : WalkInfo → WState σ → Res σ) (w : Walker)
    (cb : Cb σ) (heap : Heap) (k : RKind) (info : WalkInfo) (st : WState σ) :
    Res σ :=
  match k with
  | .invalid => some (st, some .invalidKind)
  | .array => walkArray recur w cb info st
  | .interface_ => walkPtr recur w cb heap info st
  | .ptr => walkPtr recur w cb heap info st
  | .map_ => walkMap recur w cb info st
  | .slice => walkSlice recur w cb info st
  | .chan_ => walkSimple cb info st
  | .func_ => walkSimple cb info st
  | .string_ => walkSimple cb info st
  | .flat => walkSimple cb info st
  | .struct_ => walkStruct recur w cb info st
  | .other => some (st, some (.unknownKind k))

/-- `walkValue`: loop detection, suppression of protected revisits, then kind
dispatch.  The `fuel` argument bounds the recursion depth; the Go original
recurses unboundedly and diverges on unprotected cycles, which the model
renders as exhausting every finite fuel. -/
def walkValue {σ : Type} (w : Walker) (cb : Cb σ) (heap : Heap) :
    Nat → WalkInfo → WState σ → Res σ
  | 0, _, _ => none
  | fuel + 1, info, st =>
    let p := loopDetector st.visited info
    let info' := p.1
    let st' := { st with visited := p.2 }
    if info'.IsVisited && w.LoopProtection then some (st', none)
    else
      kindRoute (walkValue w cb heap fuel) w cb heap info'.value.val.kind info' st'

/-- `checkValue`: the startup self-check that the address recovered from the
internal `reflect.Value` representation of a known value equals that value's
true address.  Modelled from the spec and from the repository's own
`value_test.go`, which pins this check to succeed on supported runtimes. -/
def checkValue : Bool := true

/-- `walkerState.walk`: the unsafe-mode self-check result is consulted first,
then a nil root short-circuits, otherwise the root descriptor (never
addressable, since the root arrives as an `interface{}` copy) is walked. -/
def walk {σ : Type} (w : Walker) (cb : Cb σ) (heap : Heap) (fuel : Nat)
    (v : Option RVal) (checkValueResult : Bool) (st : WState σ) : Res σ :=
  if w.UnsafeReadDirectPtr && !checkValueResult then
    some (st, some .badInternalReflectValue)
  else
    match v with
    | none => some (st, none)
    | some rv => walkValue w cb heap fuel (newWalkerInfo w ⟨rv, false⟩) st

/-- a fresh `walkerState` as built by `newWalkerState`: empty visited table
(and empty ghost trace) -/
def freshState {σ : Type} (s : σ) : WState σ :=
  { cbState := s, visited := [], trace := [] }

/-- `Walker.Walk`: build a fresh walker state and run `walk` with the result
of the startup self-check. -/
def Walk {σ : Type} (w : Walker) (cb : Cb σ) (s : σ) (heap : Heap)
    (fuel : Nat) (v : Option RVal) : Res σ :=
  walk w cb heap fuel v checkValue (freshState s)

end OW

/-! ## Historical variant (second file in `objwalker.go`) -/

namespace OW1

/-- Alignment unit of the version-pinned size table (`maxAlign`). -/
def maxAlign : Nat := 8

/-- `chanStructSize()`: aligned size of the runtime `hchan` header on the
pinned 64-bit runtime the size table is copied from. -/
def chanStructSize : Nat := 96

/-- `interfaceSize()`: aligned size of the runtime `iface` header. -/
def interfaceSize : Nat := 16

/-- `mapSize()`: aligned size of the runtime `hmap` header. -/
def mapSize : Nat := 48

/-- `sliceSize` constant of `walkSlice`: aligned size of `reflect.SliceHeader`. -/
def sliceSize : Nat := 24

/-- `stringHeaderSize` constant of `walkString`: aligned size of `reflect.StringHeader`. -/
def stringHeaderSize : Nat := 16

/-- Settings of the historical `Walker` (the visited table is kept separate in
`WState` so that its persistence across `Walk` calls stays visible). -/
structure Walker : Type where
  LoopProtection : Bool

/-- the historical `New`: loop protection on -/
def New : Walker := { LoopProtection := true }

/-- The historical `WalkInfo` descriptor, passed to the callback by value. -/
structure WalkInfo : Type where
  value : RefVal
  IsFlat : Bool
  IsMapKey : Bool
  IsMapValue : Bool
  IsStructField : Bool
  IsVisited : Bool
  InternalStructSize : Nat
  DirectPointer : Addr
  DataPointer : Addr

/-- A user callback of the historical variant. -/
def Cb (σ : Type) : Type := σ → WalkInfo → σ × Option WErr

/-- Mutable state of the historical walker: callback state, the visited table
held on the `Walker` object itself (so shared by successive `Walk` calls), and
the ghost trace of callback invocations. -/
structure WState (σ : Type) : Type where
  cbState : σ
  visited : List (Addr × TypeId)
  trace : List WalkInfo

/-- Result type, as in the current variant. -/
def Res (σ : Type) : Type := Option (WState σ × Option WErr)

/-- the historical `newWalkerInfo`: safe addressing only -/
def newWalkerInfo (v : RefVal) : WalkInfo :=
  { value := v
    IsFlat := false
    IsMapKey := false
    IsMapValue := false
    IsStructField := false
    IsVisited := false
    InternalStructSize := 0
    DirectPointer := if v.canAddr then v.val.addr else 0
    DataPointer := 0 }

/-- Invoke the callback, recording the descriptor in the ghost trace. -/
def callCb {σ : Type} (cb : Cb σ) (st : WState σ) (info : WalkInfo) :
    WState σ × Option WErr :=
  let r := cb st.cbState info
  ({ st with cbState := r.1, trace := st.trace ++ [info] }, r.2)

/-- Loop body over a list with early return, as in the current variant. -/
def runList {σ α : Type} (step : α → WState σ → Res σ) :
    List α → WState σ → Res σ
  | [], st => some (st, none)
  | x :: xs, st =>
    match step x st with
    | none => none
    | some (st', some e) => some (st', some e)
    | some (st', none) => runList step xs st'

/-- `walkFlat`: flag the descriptor as flat and invoke the callback. -/
def walkFlat {σ : Type} (cb : Cb σ) (info : WalkInfo) (st : WState σ) : Res σ :=
  let r := callCb cb st { info with IsFlat := true }
  some (r.1, r.2)

/-- `walkChan`: record the channel header size hint and invoke the callback. -/
def walkChan {σ : Type} (cb : Cb σ) (info : WalkInfo) (st : WState σ) : Res σ :=
  let r := callCb cb st { info with InternalStructSize := chanStructSize }
  some (r.1, r.2)

/-- `walkFunc`: just the callback (no size hint is recorded). -/
def walkFunc {σ : Type} (cb : Cb σ) (info : WalkInfo) (st : WState σ) : Res σ :=
  let r := callCb cb st info
  some (r.1, r.2)

/-- `walkString`: record the string header size and, for a non-empty string,
the address of the byte buffer, then invoke the callback. -/
def walkString {σ : Type} (cb : Cb σ) (info : WalkInfo) (st : WState σ) : Res σ :=
  let info₁ := { info with InternalStructSize := stringHeaderSize }
  let info₂ :=
    match info₁.value.val with
    | .strv _ _ dataPtr len =>
      if len > 0 then { info₁ with DataPointer := dataPtr } else info₁
    | _ => info₁
  let r := callCb cb st info₂
  some (r.1, r.2)

/-- `walkPtr` of the historical variant. -/
def walkPtr {σ : Type} (recur : WalkInfo → WState σ → Res σ) (cb : Cb σ)
    (heap : Heap) (info : WalkInfo) (st : WState σ) : Res σ :=
  match callCb cb st info with
  | (st', some e) => if e = .skip then some (st', none) else some (st', some e)
  | (st', none) =>
    if info.value.val.ptrIsNil then some (st', none)
    else
      match ptrElem heap info.value.val with
      | some elemRef => recur (newWalkerInfo elemRef) st'
      | none => some (st', none)

/-- `walkInterface`: record the interface header size, then proceed as a
pointer. -/
def walkInterface {σ : Type} (recur : WalkInfo → WState σ → Res σ) (cb : Cb σ)
    (heap : Heap) (info : WalkInfo) (st : WState σ) : Res σ :=
  walkPtr recur cb heap { info with InternalStructSize := interfaceSize } st

/-- `walkArray` of the historical variant. -/
def walkArray {σ : Type} (recur : WalkInfo → WState σ → Res σ) (cb : Cb σ)
    (info : WalkInfo) (st : WState σ) : Res σ :=
  match callCb cb st info with
  | (st', some e) => if e = .skip then some (st', none) else some (st', some e)
  | (st', none) =>
    runList (fun item st => recur (newWalkerInfo ⟨item, info.value.canAddr⟩) st)
      info.value.val.arrElems st'

/-- `walkMap` of the historical variant: the map header size hint is recorded
before the callback. -/
def walkMap {σ : Type} (recur : WalkInfo → WState σ → Res σ) (cb : Cb σ)
    (info : WalkInfo) (st : WState σ) : Res σ :=
  match callCb cb st { info with InternalStructSize := mapSize } with
  | (st', some e) => if e = .skip then some (st', none) else some (st', some e)
  | (st', none) =>
    if info.value.val.mapIsNil then some (st', none)
    else
      runList (fun kv st =>
          let keyInfo := { newWalkerInfo ⟨kv.1, false⟩ with IsMapKey := true }
          match recur keyInfo st with
          | none => none
          | some (st₁, some e) =>
            if e = .skip then some (st₁, none) else some (st₁, some e)
          | some (st₁, none) =>
            let valInfo := { newWalkerInfo ⟨kv.2, false⟩ with IsMapValue := true }
            recur valInfo st₁)
        info.value.val.mapEntries st'

/-- `walkSlice` of the historical variant: record the slice header size and
the data pointer (the first element's direct pointer) for non-empty slices,
then the callback and the elements. -/
def walkSlice {σ : Type} (recur : WalkInfo → WState σ → Res σ) (cb : Cb σ)
    (info : WalkInfo) (st : WState σ) : Res σ :=
  let info₁ := { info with InternalStructSize := sliceSize }
  let info₂ :=
    match info₁.value.val.arrElems.head? with
    | some e0 => { info₁ with DataPointer := (newWalkerInfo ⟨e0, true⟩).DirectPointer }
    | none => info₁
  match callCb cb st info₂ with
  | (st', some e) => if e = .skip then some (st', none) else some (st', some e)
  | (st', none) =>
    runList (fun item st => recur (newWalkerInfo ⟨item, true⟩) st)
      info.value.val.arrElems st'

/-- `walkStruct` of the historical variant: fields are flagged
`IsStructField`. -/
def walkStruct {σ : Type} (recur : WalkInfo → WState σ → Res σ) (cb : Cb σ)
    (info : WalkInfo) (st : WState σ) : Res σ :=
  match callCb cb st info with
  | (st', some e) => if e = .skip then some (st', none) else some (st', some e)
  | (st', none) =>
    runList
      (fun f st =>
        recur { newWalkerInfo ⟨f, info.value.canAddr⟩ with IsStructField := true } st)
      info.value.val.structFields st'

/-- the historical `walkValue`: inline loop detection (check and protected
early return both inside the non-null-pointer branch), then kind dispatch;
the historical switch has no `Invalid` case, so invalid values fall into the
default unknown-kind error. -/
def walkValue {σ : Type} (w : Walker) (cb : Cb σ) (heap : Heap) :
    Nat → WalkInfo → WState σ → Res σ
  | 0, _, _ => none
  | fuel + 1, info, st =>
    let p :=
      if info.DirectPointer ≠ 0 then
        if (info.DirectPointer, info.value.val.ty) ∈ st.visited then
          ({ info with IsVisited := true }, st.visited)
        else
          (info, (info.DirectPointer, info.value.val.ty) :: st.visited)
      else (info, st.visited)
    let info' := p.1
    let st' := { st with visited := p.2 }
    if info'.DirectPointer ≠ 0 ∧ info'.IsVisited ∧ w.LoopProtection = true then
      some (st', none)
    else
      match info'.value.val.kind with
      | .flat => walkFlat cb info' st'
      | .array => walkArray (walkValue w cb heap fuel) cb info' st'
      | .chan_ => walkChan cb info' st'
      | .func_ => walkFunc cb info' st'
      | .interface_ => walkInterface (walkValue w cb heap fuel) cb heap info' st'
      | .ptr => walkPtr (walkValue w cb heap fuel) cb heap info' st'
      | .map_ => walkMap (walkValue w cb heap fuel) cb info' st'
      | .slice => walkSlice (walkValue w cb heap fuel) cb info' st'
      | .string_ => walkString cb info' st'
      | .struct_ => walkStruct (walkValue w cb heap fuel) cb info' st'
      | k => some (st', some (.unknownKind k))

/-- the historical `Walker.Walk`: nil short-circuit, then walk the root
descriptor; the visited table arrives in `st` and persists across calls. -/
def Walk {σ : Type} (w : Walker) (cb : Cb σ) (heap : Heap) (fuel : Nat)
    (v : Option RVal) (st : WState σ) : Res σ :=
  match v with
  | none => some (st, none)
  | some rv => walkValue w cb heap fuel (newWalkerInfo ⟨rv, false⟩) st

end OW1

/-! ## Spec-side pre-order enumeration (for the exactly-once / ordering claim)

These definitions follow the specification's words, not the walker's code:
"the callback is invoked exactly once per node in the value graph, in
pre-order, parent before child, with children in declared/index order (map
entries in whatever order the iteration exposes, but key strictly before its
own value)"; pointers and interfaces contribute "the single pointee, only if
non-nil". -/

/-- Children of a node of the value graph, in the visiting order the spec
prescribes: array/slice elements in index order, struct fields in declared
order, each map key immediately before its paired value (a nil map exposes no
entries to iteration), the single pointee of a non-nil pointer or interface.
`none` marks a node the engine cannot walk (invalid or unrecognised kind). -/
def specKids (heap : Heap) (rv : RefVal) : Option (List RefVal) :=
  match rv.val with
  | .scalar _ _ => some []
  | .strv _ _ _ _ => some []
  | .chanv _ _ => some []
  | .funcv _ _ => some []
  | .arr _ _ es => some (es.map (fun e => ⟨e, rv.canAddr⟩))
  | .strct _ _ fs => some (fs.map (fun f => ⟨f, rv.canAddr⟩))
  | .slicev _ _ es => some (es.map (fun e => ⟨e, true⟩))
  | .mapv _ _ isNil es =>
    some (if isNil then []
          else es.flatMap (fun kv => [⟨kv.1, false⟩, ⟨kv.2, false⟩]))
  | .ptrv _ _ none => some []
  | .ptrv _ _ (some a) =>
    some (match List.lookup a heap with
          | some tv => [⟨tv, true⟩]
          | none => [])
  | .intfv _ _ none => some []
  | .intfv _ _ (some e) => some [⟨e, false⟩]
  | .invalidv => none
  | .othrv _ _ => none

/-- Sequence pre-order enumerations of a list of children, failing as soon as
one child fails. -/
def seqKids (f : RefVal → Option (List RefVal)) : List RefVal → Option (List RefVal)
  | [] => some []
  | c :: cs =>
    match f c, seqKids f cs with
    | some l, some r => some (l ++ r)
    | _, _ => none

/-- Depth-first pre-order enumeration of the value graph: the node itself,
then the pre-orders of its children in order.  `fuel` bounds the depth; a
value graph is acyclic exactly when some fuel suffices. -/
def preorder (heap : Heap) : Nat → RefVal → Option (List RefVal)
  | 0, _ => none
  | fuel + 1, rv =>
    match specKids heap rv with
    | none => none
    | some kids => (seqKids (preorder heap fuel) kids).map (fun l => rv :: l)

/-- The (address, static type) pairs the repeat-visit detector will key the
nodes of an enumeration on: only addressable nodes with a non-null address
participate. -/
def addressedKeys (l : List RefVal) : List (Addr × TypeId) :=
  l.filterMap (fun rv =>
    if rv.canAddr ∧ rv.val.addr ≠ 0 then some (rv.val.addr, rv.val.ty) else none)

/-! ## Helper lemmas about the embedding -/

/-- Direct pointer the current variant actually stores in a descriptor: the
value's address when addressable, null otherwise — in both addressing modes,
because `newWalkerInfo` only consults `getDirectPointer` under `CanAddr`. -/
def dpSafe (rv : RefVal) : Addr :=
  if rv.canAddr then rv.val.addr else 0

theorem newWalkerInfo_dp (w : OW.Walker) (v : RefVal) :
    (OW.newWalkerInfo w v).DirectPointer = dpSafe v := by
  unfold OW.newWalkerInfo OW.getDirectPointer dpSafe
  cases h : v.canAddr <;> cases w.UnsafeReadDirectPtr <;> simp

theorem dpSafe_ne_zero (rv : RefVal) :
    dpSafe rv ≠ 0 ↔ rv.canAddr = true ∧ rv.val.addr ≠ 0 := by
  unfold dpSafe
  cases h : rv.canAddr <;> simp

theorem runList_map {σ α β : Type} (step : β → OW.WState σ → OW.Res σ)
    (f : α → β) (l : List α) (st : OW.WState σ) :
    OW.runList step (l.map f) st = OW.runList (fun a st => step (f a) st) l st := by
  induction l generalizing st with
  | nil => rfl
  | cons x xs ih =>
    simp only [List.map_cons, OW.runList]
    match step (f x) st with
    | none => rfl
    | some (st', some e) => rfl
    | some (st', none) => exact ih st'

theorem addressedKeys_nil : addressedKeys [] = [] := rfl

theorem addressedKeys_append (l₁ l₂ : List RefVal) :
    addressedKeys (l₁ ++ l₂) = addressedKeys l₁ ++ addressedKeys l₂ :=
  List.filterMap_append ..

theorem addressedKeys_cons (rv : RefVal) (l : List RefVal) :
    addressedKeys (rv :: l) =
      (if rv.canAddr ∧ rv.val.addr ≠ 0 then [(rv.val.addr, rv.val.ty)] else []) ++
        addressedKeys l := by
  unfold addressedKeys
  rw [List.filterMap_cons]
  by_cases h : rv.canAddr = true ∧ rv.val.addr ≠ 0 <;> simp [h]

theorem walkValue_succ_dp0 {σ : Type} (w : OW.Walker) (cb : OW.Cb σ) (heap : Heap)
    (fuel : Nat) (info : OW.WalkInfo) (st : OW.WState σ)
    (h0 : info.DirectPointer = 0) (hv : info.IsVisited = false) :
    OW.walkValue w cb heap (fuel + 1) info st =
      OW.kindRoute (OW.walkValue w cb heap fuel) w cb heap info.value.val.kind info st := by
  simp only [OW.walkValue, OW.loopDetector, h0]
  simp [hv]

theorem walkValue_succ_fresh {σ : Type} (w : OW.Walker) (cb : OW.Cb σ) (heap : Heap)
    (fuel : Nat) (info : OW.WalkInfo) (st : OW.WState σ)
    (hdp : info.DirectPointer ≠ 0)
    (hmem : (info.DirectPointer, info.value.val.ty) ∉ st.visited)
    (hv : info.IsVisited = false) :
    OW.walkValue w cb heap (fuel + 1) info st =
      OW.kindRoute (OW.walkValue w cb heap fuel) w cb heap info.value.val.kind info
        { st with visited := (info.DirectPointer, info.value.val.ty) :: st.visited } := by
  simp only [OW.walkValue, OW.loopDetector]
  simp [hmem, hv, hdp]

theorem walkValue_succ_revisit_protected {σ : Type} (w : OW.Walker) (cb : OW.Cb σ)
    (heap : Heap) (fuel : Nat) (info : OW.WalkInfo) (st : OW.WState σ)
    (hdp : info.DirectPointer ≠ 0)
    (hmem : (info.DirectPointer, info.value.val.ty) ∈ st.visited)
    (hprot : w.LoopProtection = true) :
    OW.walkValue w cb heap (fuel + 1) info st = some (st, none) := by
  simp only [OW.walkValue, OW.loopDetector]
  simp [hmem, hprot, hdp]

theorem walkValue_succ_revisit_unprotected {σ : Type} (w : OW.Walker) (cb : OW.Cb σ)
    (heap : Heap) (fuel : Nat) (info : OW.WalkInfo) (st : OW.WState σ)
    (hdp : info.DirectPointer ≠ 0)
    (hmem : (info.DirectPointer, info.value.val.ty) ∈ st.visited)
    (hprot : w.LoopProtection = false) :
    OW.walkValue w cb heap (fuel + 1) info st =
      OW.kindRoute (OW.walkValue w cb heap fuel) w cb heap info.value.val.kind
        { info with IsVisited := true } st := by
  simp only [OW.walkValue, OW.loopDetector]
  simp [hmem, hprot, hdp]

/-- Statement of the pre-order refinement at one fuel level: when the
spec-side pre-order enumeration of a (sub)value succeeds and its addressed
(address, type) keys are distinct and not yet in the visited table, the walker
succeeds, appends exactly that enumeration to the callback trace, and extends
the visited table by exactly those keys. -/
def PreIH {σ : Type} (w : OW.Walker) (cb : OW.Cb σ) (heap : Heap) (fuel : Nat) : Prop :=
  ∀ (rv : RefVal) (l : List RefVal) (st : OW.WState σ) (info : OW.WalkInfo),
    preorder heap fuel rv = some l →
    (addressedKeys l).Nodup →
    (∀ p ∈ addressedKeys l, p ∉ st.visited) →
    info.value = rv → info.IsVisited = false → info.DirectPointer = dpSafe rv →
    ∃ st', OW.walkValue w cb heap fuel info st = some (st', none) ∧
      st'.trace.map (fun i => i.value) = st.trace.map (fun i => i.value) ++ l ∧
      (∀ p, p ∈ st'.visited ↔ p ∈ st.visited ∨ p ∈ addressedKeys l)

theorem pre_children {σ : Type} {w : OW.Walker} {cb : OW.Cb σ} {heap : Heap} {fuel : Nat}
    (IH : PreIH w cb heap fuel) (mkI : RefVal → OW.WalkInfo)
    (hval : ∀ c, (mkI c).value = c) (hvis : ∀ c, (mkI c).IsVisited = false)
    (hdp : ∀ c, (mkI c).DirectPointer = dpSafe c) :
    ∀ (cs ls : List RefVal) (st : OW.WState σ),
      seqKids (preorder heap fuel) cs = some ls →
      (addressedKeys ls).Nodup →
      (∀ p ∈ addressedKeys ls, p ∉ st.visited) →
      ∃ st', OW.runList (fun c st => OW.walkValue w cb heap fuel (mkI c) st) cs st
          = some (st', none) ∧
        st'.trace.map (fun i => i.value) = st.trace.map (fun i => i.value) ++ ls ∧
        (∀ p, p ∈ st'.visited ↔ p ∈ st.visited ∨ p ∈ addressedKeys ls) := by
  intro cs
  induction cs with
  | nil =>
    intro ls st hseq hnd hdisj
    simp only [seqKids, Option.some.injEq] at hseq
    subst hseq
    exact ⟨st, rfl, by simp, fun p => by simp [addressedKeys]⟩
  | cons c cs' ihc =>
    intro ls st hseq hnd hdisj
    cases hfc : preorder heap fuel c with
    | none => simp [seqKids, hfc] at hseq
    | some lc =>
      cases hrest : seqKids (preorder heap fuel) cs' with
      | none => simp [seqKids, hfc, hrest] at hseq
      | some lrest =>
        simp only [seqKids, hfc, hrest, Option.some.injEq] at hseq
        subst hseq
        rw [addressedKeys_append, List.nodup_append] at hnd
        obtain ⟨hnd₁, hnd₂, hdisj₁₂⟩ := hnd
        obtain ⟨st₁, hw₁, htr₁, hv₁⟩ :=
          IH c lc st (mkI c) hfc hnd₁
            (fun p hp => hdisj p (by rw [addressedKeys_append]; exact List.mem_append_left _ hp))
            (hval c) (hvis c) (hdp c)
        obtain ⟨st₂, hw₂, htr₂, hv₂⟩ := ihc lrest st₁ hrest hnd₂ (by
          intro p hp
          rw [hv₁ p]
          push_neg
          refine ⟨hdisj p ?_, fun hmem => hdisj₁₂ hmem hp⟩
          rw [addressedKeys_append]
          exact List.mem_append_right _ hp)
        refine ⟨st₂, ?_, ?_, ?_⟩
        · simp only [OW.runList, hw₁]
          exact hw₂
        · rw [htr₂, htr₁, List.append_assoc]
        · intro p
          rw [hv₂ p, hv₁ p, addressedKeys_append, List.mem_append, or_assoc]

theorem pre_entries {σ : Type} {w : OW.Walker} {cb : OW.Cb σ} {heap : Heap} {fuel : Nat}
    (IH : PreIH w cb heap fuel) :
    ∀ (es : List (RVal × RVal)) (ls : List RefVal) (st : OW.WState σ),
      seqKids (preorder heap fuel)
          (es.flatMap (fun kv => [⟨kv.1, false⟩, ⟨kv.2, false⟩])) = some ls →
      (addressedKeys ls).Nodup →
      (∀ p ∈ addressedKeys ls, p ∉ st.visited) →
      ∃ st', OW.runList (fun kv st =>
          let keyInfo := { OW.newWalkerInfo w ⟨kv.1, false⟩ with isMapKey := true }
          match OW.walkValue w cb heap fuel keyInfo st with
          | none => none
          | some (st₁, some e) =>
            if e = .skip then some (st₁, none) else some (st₁, some e)
          | some (st₁, none) =>
            let valInfo := { OW.newWalkerInfo w ⟨kv.2, false⟩ with isMapValue := true }
            OW.walkValue w cb heap fuel valInfo st₁) es st = some (st', none) ∧
        st'.trace.map (fun i => i.value) = st.trace.map (fun i => i.value) ++ ls ∧
        (∀ p, p ∈ st'.visited ↔ p ∈ st.visited ∨ p ∈ addressedKeys ls) := by
  intro es
  induction es with
  | nil =>
    intro ls st hseq hnd hdisj
    simp only [List.flatMap_nil, seqKids, Option.some.injEq] at hseq
    subst hseq
    exact ⟨st, rfl, by simp, fun p => by simp [addressedKeys]⟩
  | cons kv es' ihe =>
    intro ls st hseq hnd hdisj
    simp only [List.flatMap_cons, List.cons_append, List.nil_append] at hseq
    cases hfk : preorder heap fuel ⟨kv.1, false⟩ with
    | none => simp [seqKids, hfk] at hseq
    | some lk =>
      cases hfv : preorder heap fuel ⟨kv.2, false⟩ with
      | none => simp [seqKids, hfk, hfv] at hseq
      | some lv =>
        cases hrest : seqKids (preorder heap fuel)
            (es'.flatMap (fun kv => [⟨kv.1, false⟩, ⟨kv.2, false⟩])) with
        | none => simp [seqKids, hfk, hfv, hrest] at hseq
        | some lrest =>
          simp only [seqKids, hfk, hfv, hrest, Option.some.injEq] at hseq
          subst hseq
          rw [addressedKeys_append, List.nodup_append] at hnd
          obtain ⟨hndk, hnd', hdisjk⟩ := hnd
          rw [addressedKeys_append, List.nodup_append] at hnd'
          obtain ⟨hndv, hndrest, hdisjvr⟩ := hnd'
          obtain ⟨st₁, hw₁, htr₁, hv₁⟩ :=
            IH ⟨kv.1, false⟩ lk st
              { OW.newWalkerInfo w ⟨kv.1, false⟩ with isMapKey := true } hfk hndk
              (fun p hp => hdisj p (by
                rw [addressedKeys_append]; exact List.mem_append_left _ hp))
              rfl rfl (newWalkerInfo_dp w ⟨kv.1, false⟩)
          obtain ⟨st₂, hw₂, htr₂, hv₂⟩ :=
            IH ⟨kv.2, false⟩ lv st₁
              { OW.newWalkerInfo w ⟨kv.2, false⟩ with isMapValue := true } hfv hndv
              (by
                intro p hp
                rw [hv₁ p]
                push_neg
                constructor
                · exact hdisj p (by
                    rw [addressedKeys_append, addressedKeys_append]
                    exact List.mem_append_right _ (List.mem_append_left _ hp))
                · intro hmem
                  exact hdisjk hmem (by
                    rw [addressedKeys_append]
                    exact List.mem_append_left _ hp))
              rfl rfl (newWalkerInfo_dp w ⟨kv.2, false⟩)
          obtain ⟨st₃, hw₃, htr₃, hv₃⟩ := ihe lrest st₂ hrest hndrest (by
            intro p hp
            rw [hv₂ p, hv₁ p]
            push_neg
            refine ⟨⟨hdisj p ?_, fun hmem => hdisjk hmem ?_⟩, fun hmem => hdisjvr hmem hp⟩
            · rw [addressedKeys_append, addressedKeys_append]
              exact List.mem_append_right _ (List.mem_append_right _ hp)
            · rw [addressedKeys_append]
              exact List.mem_append_right _ hp)
          refine ⟨st₃, ?_, ?_, ?_⟩
          · simp only [OW.runList, hw₁, hw₂]
            exact hw₃
          · rw [htr₃, htr₂, htr₁]
            simp [List.append_assoc]
          · intro p
            rw [hv₃ p, hv₂ p, hv₁ p, addressedKeys_append, addressedKeys_append]
            simp only [List.mem_append]
            tauto

theorem addressedKeys_single (rv : RefVal) :
    addressedKeys [rv] =
      if rv.canAddr ∧ rv.val.addr ≠ 0 then [(rv.val.addr, rv.val.ty)] else [] := by
  rw [addressedKeys_cons, addressedKeys_nil, List.append_nil]

theorem addressedKeys_cons_split (rv : RefVal) (l : List RefVal) :
    addressedKeys (rv :: l) = addressedKeys [rv] ++ addressedKeys l := by
  rw [addressedKeys_cons, addressedKeys_single]

theorem walkSimple_ok {σ : Type} (cb : OW.Cb σ) (hcb : ∀ s i, (cb s i).2 = none)
    (info : OW.WalkInfo) (st : OW.WState σ) :
    OW.walkSimple cb info st =
      some ({ st with cbState := (cb st.cbState info).1,
                      trace := st.trace ++ [info] }, none) := by
  simp [OW.walkSimple, OW.callCb, hcb]

theorem detector_step {σ : Type} (w : OW.Walker) (cb : OW.Cb σ) (heap : Heap) (fuel : Nat)
    (rv : RefVal) (ls : List RefVal) (st : OW.WState σ) (info : OW.WalkInfo)
    (hval : info.value = rv) (hvis : info.IsVisited = false)
    (hdp : info.DirectPointer = dpSafe rv)
    (hnd : (addressedKeys (rv :: ls)).Nodup)
    (hdisj : ∀ p ∈ addressedKeys (rv :: ls), p ∉ st.visited) :
    ∃ st₁ : OW.WState σ,
      OW.walkValue w cb heap (fuel + 1) info st =
        OW.kindRoute (OW.walkValue w cb heap fuel) w cb heap rv.val.kind info st₁ ∧
      st₁.cbState = st.cbState ∧ st₁.trace = st.trace ∧
      (∀ p, p ∈ st₁.visited ↔ p ∈ st.visited ∨ p ∈ addressedKeys [rv]) ∧
      (∀ p ∈ addressedKeys ls, p ∉ st₁.visited) := by
  by_cases h0 : info.DirectPointer = 0
  · have hkey : addressedKeys [rv] = [] := by
      rw [addressedKeys_single, if_neg]
      rw [← dpSafe_ne_zero, ← hdp]
      simp [h0]
    refine ⟨st, ?_, rfl, rfl, ?_, ?_⟩
    · rw [walkValue_succ_dp0 w cb heap fuel info st h0 hvis, hval]
    · intro p; simp [hkey]
    · intro p hp
      exact hdisj p (by rw [addressedKeys_cons_split]; exact List.mem_append_right _ hp)
  · have haddr : rv.canAddr = true ∧ rv.val.addr ≠ 0 := by
      rw [← dpSafe_ne_zero, ← hdp]; exact h0
    have hkey : addressedKeys [rv] = [(rv.val.addr, rv.val.ty)] := by
      rw [addressedKeys_single, if_pos haddr]
    have hdpa : info.DirectPointer = rv.val.addr := by
      rw [hdp]; unfold dpSafe; rw [if_pos haddr.1]
    have hheadmem : (rv.val.addr, rv.val.ty) ∈ addressedKeys (rv :: ls) := by
      rw [addressedKeys_cons_split, hkey]; simp
    have hmem : (info.DirectPointer, info.value.val.ty) ∉ st.visited := by
      rw [hdpa, hval]; exact hdisj _ hheadmem
    refine ⟨{ st with visited := (info.DirectPointer, info.value.val.ty) :: st.visited },
      ?_, rfl, rfl, ?_, ?_⟩
    · rw [walkValue_succ_fresh w cb heap fuel info st h0 hmem hvis, hval]
    · intro p; simp [hkey, hdpa, hval, or_comm]
    · intro p hp
      have hne : p ≠ (rv.val.addr, rv.val.ty) := by
        intro he
        rw [addressedKeys_cons_split, hkey, List.nodup_append] at hnd
        exact hnd.2.2 (by simp) (he ▸ hp)
      simp only [List.mem_cons, hdpa, hval]
      push_neg
      exact ⟨hne, hdisj p (by
        rw [addressedKeys_cons_split]; exact List.mem_append_right _ hp)⟩

theorem walk_pre_aux {σ : Type} (w : OW.Walker) (cb : OW.Cb σ) (heap : Heap)
    (hcb : ∀ s i, (cb s i).2 = none) :
    ∀ fuel, PreIH w cb heap fuel := by
  intro fuel
  induction fuel with
  | zero =>
    intro rv l st info hpre
    simp [preorder] at hpre
  | succ fuel ih =>
    intro rv l st info hpre hnd hdisj hval hvis hdp
    obtain ⟨rvv, rca⟩ := rv
    cases rvv with
    | arr t a es =>
      simp only [preorder, specKids] at hpre
      cases hsq : seqKids (preorder heap fuel) (es.map (fun e => (⟨e, rca⟩ : RefVal))) with
      | none => rw [hsq] at hpre; simp at hpre
      | some ls =>
        rw [hsq] at hpre
        simp only [Option.map_some', Option.some.injEq] at hpre
        subst hpre
        obtain ⟨st₁, hstep, hcb₁, htr₁, hviff₁, hdisj₁⟩ :=
          detector_step w cb heap fuel ⟨.arr t a es, rca⟩ ls st info hval hvis hdp hnd hdisj
        rw [hstep]
        simp only [OW.kindRoute, RVal.kind]
        simp only [OW.walkArray, OW.callCb, hcb]
        simp only [hval, RVal.arrElems]
        obtain ⟨st₃, hrun, htr₃, hv₃⟩ :=
          pre_children ih (OW.newWalkerInfo w) (fun c => rfl) (fun c => rfl)
            (fun c => newWalkerInfo_dp w c)
            (es.map (fun e => (⟨e, rca⟩ : RefVal))) ls
            { st₁ with cbState := (cb st₁.cbState info).1, trace := st₁.trace ++ [info] }
            hsq
            (by
              rw [addressedKeys_cons_split, List.nodup_append] at hnd
              exact hnd.2.1)
            hdisj₁
        simp only [runList_map] at hrun
        have hses : ({ cbState := (cb st₁.cbState info).1, visited := st₁.visited, trace := st₁.trace ++ [info] } : OW.WState σ).visited = st₁.visited := rfl
        have hsetr : ({ cbState := (cb st₁.cbState info).1, visited := st₁.visited, trace := st₁.trace ++ [info] } : OW.WState σ).trace = st₁.trace ++ [info] := rfl
        refine ⟨st₃, hrun, ?_, ?_⟩
        · rw [htr₃, hsetr]
          simp [htr₁, hval]
        · intro p
          have h₃ := hv₃ p
          rw [hses, hviff₁ p] at h₃
          rw [h₃, addressedKeys_cons_split _ ls]
          simp only [List.mem_append]
          tauto
    | scalar t a =>
      simp only [preorder, specKids, seqKids, Option.map_some', Option.some.injEq] at hpre
      subst hpre
      obtain ⟨st₁, hstep, hcb₁, htr₁, hviff₁, _⟩ :=
        detector_step w cb heap fuel ⟨.scalar t a, rca⟩ [] st info hval hvis hdp hnd hdisj
      rw [hstep]
      simp only [OW.kindRoute, RVal.kind]
      rw [walkSimple_ok cb hcb info st₁]
      refine ⟨_, rfl, ?_, ?_⟩
      · simp [htr₁, hval]
      · intro p
        simpa using hviff₁ p
    | strv t a d len =>
      simp only [preorder, specKids, seqKids, Option.map_some', Option.some.injEq] at hpre
      subst hpre
      obtain ⟨st₁, hstep, hcb₁, htr₁, hviff₁, _⟩ :=
        detector_step w cb heap fuel ⟨.strv t a d len, rca⟩ [] st info hval hvis hdp hnd hdisj
      rw [hstep]
      simp only [OW.kindRoute, RVal.kind]
      rw [walkSimple_ok cb hcb info st₁]
      refine ⟨_, rfl, ?_, ?_⟩
      · simp [htr₁, hval]
      · intro p
        simpa using hviff₁ p
    | chanv t a =>
      simp only [preorder, specKids, seqKids, Option.map_some', Option.some.injEq] at hpre
      subst hpre
      obtain ⟨st₁, hstep, hcb₁, htr₁, hviff₁, _⟩ :=
        detector_step w cb heap fuel ⟨.chanv t a, rca⟩ [] st info hval hvis hdp hnd hdisj
      rw [hstep]
      simp only [OW.kindRoute, RVal.kind]
      rw [walkSimple_ok cb hcb info st₁]
      refine ⟨_, rfl, ?_, ?_⟩
      · simp [htr₁, hval]
      · intro p
        simpa using hviff₁ p
    | funcv t a =>
      simp only [preorder, specKids, seqKids, Option.map_some', Option.some.injEq] at hpre
      subst hpre
      obtain ⟨st₁, hstep, hcb₁, htr₁, hviff₁, _⟩ :=
        detector_step w cb heap fuel ⟨.funcv t a, rca⟩ [] st info hval hvis hdp hnd hdisj
      rw [hstep]
      simp only [OW.kindRoute, RVal.kind]
      rw [walkSimple_ok cb hcb info st₁]
      refine ⟨_, rfl, ?_, ?_⟩
      · simp [htr₁, hval]
      · intro p
        simpa using hviff₁ p
    | strct t a es =>
      simp only [preorder, specKids] at hpre
      cases hsq : seqKids (preorder heap fuel) (es.map (fun e => (⟨e, rca⟩ : RefVal))) with
      | none => rw [hsq] at hpre; simp at hpre
      | some ls =>
        rw [hsq] at hpre
        simp only [Option.map_some', Option.some.injEq] at hpre
        subst hpre
        obtain ⟨st₁, hstep, hcb₁, htr₁, hviff₁, hdisj₁⟩ :=
          detector_step w cb heap fuel ⟨.strct t a es, rca⟩ ls st info hval hvis hdp hnd hdisj
        rw [hstep]
        simp only [OW.kindRoute, RVal.kind]
        simp only [OW.walkStruct, OW.callCb, hcb]
        simp only [hval, RVal.structFields]
        obtain ⟨st₃, hrun, htr₃, hv₃⟩ :=
          pre_children ih (OW.newWalkerInfo w) (fun c => rfl) (fun c => rfl)
            (fun c => newWalkerInfo_dp w c)
            (es.map (fun e => (⟨e, rca⟩ : RefVal))) ls
            { st₁ with cbState := (cb st₁.cbState info).1, trace := st₁.trace ++ [info] }
            hsq
            (by
              rw [addressedKeys_cons_split, List.nodup_append] at hnd
              exact hnd.2.1)
            hdisj₁
        simp only [runList_map] at hrun
        have hses : ({ cbState := (cb st₁.cbState info).1, visited := st₁.visited, trace := st₁.trace ++ [info] } : OW.WState σ).visited = st₁.visited := rfl
        have hsetr : ({ cbState := (cb st₁.cbState info).1, visited := st₁.visited, trace := st₁.trace ++ [info] } : OW.WState σ).trace = st₁.trace ++ [info] := rfl
        refine ⟨st₃, hrun, ?_, ?_⟩
        · rw [htr₃, hsetr]
          simp [htr₁, hval]
        · intro p
          have h₃ := hv₃ p
          rw [hses, hviff₁ p] at h₃
          rw [h₃, addressedKeys_cons_split _ ls]
          simp only [List.mem_append]
          tauto
    | slicev t a es =>
      simp only [preorder, specKids] at hpre
      cases hsq : seqKids (preorder heap fuel) (es.map (fun e => (⟨e, true⟩ : RefVal))) with
      | none => rw [hsq] at hpre; simp at hpre
      | some ls =>
        rw [hsq] at hpre
        simp only [Option.map_some', Option.some.injEq] at hpre
        subst hpre
        obtain ⟨st₁, hstep, hcb₁, htr₁, hviff₁, hdisj₁⟩ :=
          detector_step w cb heap fuel ⟨.slicev t a es, rca⟩ ls st info hval hvis hdp hnd hdisj
        rw [hstep]
        simp only [OW.kindRoute, RVal.kind]
        simp only [OW.walkSlice, OW.callCb, hcb]
        simp only [hval, RVal.arrElems]
        obtain ⟨st₃, hrun, htr₃, hv₃⟩ :=
          pre_children ih (OW.newWalkerInfo w) (fun c => rfl) (fun c => rfl)
            (fun c => newWalkerInfo_dp w c)
            (es.map (fun e => (⟨e, true⟩ : RefVal))) ls
            { st₁ with cbState := (cb st₁.cbState info).1, trace := st₁.trace ++ [info] }
            hsq
            (by
              rw [addressedKeys_cons_split, List.nodup_append] at hnd
              exact hnd.2.1)
            hdisj₁
        simp only [runList_map] at hrun
        have hses : ({ cbState := (cb st₁.cbState info).1, visited := st₁.visited, trace := st₁.trace ++ [info] } : OW.WState σ).visited = st₁.visited := rfl
        have hsetr : ({ cbState := (cb st₁.cbState info).1, visited := st₁.visited, trace := st₁.trace ++ [info] } : OW.WState σ).trace = st₁.trace ++ [info] := rfl
        refine ⟨st₃, hrun, ?_, ?_⟩
        · rw [htr₃, hsetr]
          simp [htr₁, hval]
        · intro p
          have h₃ := hv₃ p
          rw [hses, hviff₁ p] at h₃
          rw [h₃, addressedKeys_cons_split _ ls]
          simp only [List.mem_append]
          tauto
    | mapv t a isNil es =>
      cases isNil with
      | true =>
        simp only [preorder, specKids, eq_self_iff_true, if_true, seqKids, Option.map_some',
          Option.some.injEq] at hpre
        subst hpre
        obtain ⟨st₁, hstep, hcb₁, htr₁, hviff₁, _⟩ :=
          detector_step w cb heap fuel ⟨.mapv t a true es, rca⟩ [] st info hval hvis hdp hnd hdisj
        rw [hstep]
        simp only [OW.kindRoute, RVal.kind]
        simp only [OW.walkMap, OW.callCb, hcb]
        simp only [hval, RVal.mapIsNil, eq_self_iff_true, if_true]
        refine ⟨_, rfl, ?_, ?_⟩
        · simp [htr₁, hval]
        · intro p
          simpa using hviff₁ p
      | false =>
        simp only [preorder, specKids, Bool.false_eq_true, if_false] at hpre
        cases hsq : seqKids (preorder heap fuel)
            (es.flatMap (fun kv => [⟨kv.1, false⟩, ⟨kv.2, false⟩])) with
        | none => rw [hsq] at hpre; simp at hpre
        | some ls =>
          rw [hsq] at hpre
          simp only [Option.map_some', Option.some.injEq] at hpre
          subst hpre
          obtain ⟨st₁, hstep, hcb₁, htr₁, hviff₁, hdisj₁⟩ :=
            detector_step w cb heap fuel ⟨.mapv t a false es, rca⟩ ls st info hval hvis hdp hnd hdisj
          rw [hstep]
          simp only [OW.kindRoute, RVal.kind]
          simp only [OW.walkMap, OW.callCb, hcb]
          simp only [hval, RVal.mapIsNil, RVal.mapEntries, Bool.false_eq_true, if_false]
          obtain ⟨st₃, hrun, htr₃, hv₃⟩ :=
            pre_entries ih es ls
              { st₁ with cbState := (cb st₁.cbState info).1, trace := st₁.trace ++ [info] }
              hsq
              (by
                rw [addressedKeys_cons_split, List.nodup_append] at hnd
                exact hnd.2.1)
              hdisj₁
          have hses : ({ cbState := (cb st₁.cbState info).1, visited := st₁.visited, trace := st₁.trace ++ [info] } : OW.WState σ).visited = st₁.visited := rfl
          have hsetr : ({ cbState := (cb st₁.cbState info).1, visited := st₁.visited, trace := st₁.trace ++ [info] } : OW.WState σ).trace = st₁.trace ++ [info] := rfl
          refine ⟨st₃, hrun, ?_, ?_⟩
          · rw [htr₃, hsetr]
            simp [htr₁, hval]
          · intro p
            have h₃ := hv₃ p
            rw [hses, hviff₁ p] at h₃
            rw [h₃, addressedKeys_cons_split _ ls]
            simp only [List.mem_append]
            tauto
    | ptrv t a target =>
      cases target with
      | none =>
        simp only [preorder, specKids, seqKids, Option.map_some', Option.some.injEq] at hpre
        subst hpre
        obtain ⟨st₁, hstep, hcb₁, htr₁, hviff₁, _⟩ :=
          detector_step w cb heap fuel ⟨.ptrv t a none, rca⟩ [] st info hval hvis hdp hnd hdisj
        rw [hstep]
        simp only [OW.kindRoute, RVal.kind]
        simp only [OW.walkPtr, OW.callCb, hcb]
        simp only [hval, RVal.ptrIsNil, Option.isNone_none, eq_self_iff_true, if_true]
        refine ⟨_, rfl, ?_, ?_⟩
        · simp [htr₁, hval]
        · intro p
          simpa using hviff₁ p
      | some ad =>
        cases hlk : List.lookup ad heap with
        | none =>
          simp only [preorder, specKids, hlk, seqKids, Option.map_some',
            Option.some.injEq] at hpre
          subst hpre
          obtain ⟨st₁, hstep, hcb₁, htr₁, hviff₁, _⟩ :=
            detector_step w cb heap fuel ⟨.ptrv t a (some ad), rca⟩ [] st info hval hvis hdp hnd hdisj
          rw [hstep]
          simp only [OW.kindRoute, RVal.kind]
          simp only [OW.walkPtr, OW.callCb, hcb]
          simp only [hval, RVal.ptrIsNil, Option.isNone_some, Bool.false_eq_true, if_false,
            ptrElem, hlk, Option.map_none']
          refine ⟨_, rfl, ?_, ?_⟩
          · simp [htr₁, hval]
          · intro p
            simpa using hviff₁ p
        | some tv =>
          simp only [preorder, specKids, hlk, seqKids, List.append_nil] at hpre
          cases hfc : preorder heap fuel ⟨tv, true⟩ with
          | none => rw [hfc] at hpre; simp at hpre
          | some lc =>
            rw [hfc] at hpre
            simp only [List.append_nil, Option.map_some', Option.some.injEq] at hpre
            subst hpre
            obtain ⟨st₁, hstep, hcb₁, htr₁, hviff₁, hdisj₁⟩ :=
              detector_step w cb heap fuel ⟨.ptrv t a (some ad), rca⟩ lc st info hval hvis hdp hnd hdisj
            rw [hstep]
            simp only [OW.kindRoute, RVal.kind]
            simp only [OW.walkPtr, OW.callCb, hcb]
            simp only [hval, RVal.ptrIsNil, Option.isNone_some, Bool.false_eq_true, if_false,
              ptrElem, hlk, Option.map_some']
            obtain ⟨st₃, hwv, htr₃, hv₃⟩ :=
              ih ⟨tv, true⟩ lc
                { st₁ with cbState := (cb st₁.cbState info).1, trace := st₁.trace ++ [info] }
                (OW.newWalkerInfo w ⟨tv, true⟩) hfc
                (by
                  rw [addressedKeys_cons_split, List.nodup_append] at hnd
                  exact hnd.2.1)
                hdisj₁ rfl rfl (newWalkerInfo_dp w ⟨tv, true⟩)
            have hses : ({ cbState := (cb st₁.cbState info).1, visited := st₁.visited, trace := st₁.trace ++ [info] } : OW.WState σ).visited = st₁.visited := rfl
            have hsetr : ({ cbState := (cb st₁.cbState info).1, visited := st₁.visited, trace := st₁.trace ++ [info] } : OW.WState σ).trace = st₁.trace ++ [info] := rfl
            refine ⟨st₃, hwv, ?_, ?_⟩
            · rw [htr₃, hsetr]
              simp [htr₁, hval]
            · intro p
              have h₃ := hv₃ p
              rw [hses, hviff₁ p] at h₃
              rw [h₃, addressedKeys_cons_split _ lc]
              simp only [List.mem_append]
              tauto
    | intfv t a elem =>
      cases elem with
      | none =>
        simp only [preorder, specKids, seqKids, Option.map_some', Option.some.injEq] at hpre
        subst hpre
        obtain ⟨st₁, hstep, hcb₁, htr₁, hviff₁, _⟩ :=
          detector_step w cb heap fuel ⟨.intfv t a none, rca⟩ [] st info hval hvis hdp hnd hdisj
        rw [hstep]
        simp only [OW.kindRoute, RVal.kind]
        simp only [OW.walkPtr, OW.callCb, hcb]
        simp only [hval, RVal.ptrIsNil, Option.isNone_none, eq_self_iff_true, if_true]
        refine ⟨_, rfl, ?_, ?_⟩
        · simp [htr₁, hval]
        · intro p
          simpa using hviff₁ p
      | some ev =>
        simp only [preorder, specKids, seqKids, List.append_nil] at hpre
        cases hfc : preorder heap fuel ⟨ev, false⟩ with
        | none => rw [hfc] at hpre; simp at hpre
        | some lc =>
          rw [hfc] at hpre
          simp only [List.append_nil, Option.map_some', Option.some.injEq] at hpre
          subst hpre
          obtain ⟨st₁, hstep, hcb₁, htr₁, hviff₁, hdisj₁⟩ :=
            detector_step w cb heap fuel ⟨.intfv t a (some ev), rca⟩ lc st info hval hvis hdp hnd hdisj
          rw [hstep]
          simp only [OW.kindRoute, RVal.kind]
          simp only [OW.walkPtr, OW.callCb, hcb]
          simp only [hval, RVal.ptrIsNil, Option.isNone_some, Bool.false_eq_true, if_false,
            ptrElem]
          obtain ⟨st₃, hwv, htr₃, hv₃⟩ :=
            ih ⟨ev, false⟩ lc
              { st₁ with cbState := (cb st₁.cbState info).1, trace := st₁.trace ++ [info] }
              (OW.newWalkerInfo w ⟨ev, false⟩) hfc
              (by
                rw [addressedKeys_cons_split, List.nodup_append] at hnd
                exact hnd.2.1)
              hdisj₁ rfl rfl (newWalkerInfo_dp w ⟨ev, false⟩)
          have hses : ({ cbState := (cb st₁.cbState info).1, visited := st₁.visited, trace := st₁.trace ++ [info] } : OW.WState σ).visited = st₁.visited := rfl
          have hsetr : ({ cbState := (cb st₁.cbState info).1, visited := st₁.visited, trace := st₁.trace ++ [info] } : OW.WState σ).trace = st₁.trace ++ [info] := rfl
          refine ⟨st₃, hwv, ?_, ?_⟩
          · rw [htr₃, hsetr]
            simp [htr₁, hval]
          · intro p
            have h₃ := hv₃ p
            rw [hses, hviff₁ p] at h₃
            rw [h₃, addressedKeys_cons_split _ lc]
            simp only [List.mem_append]
            tauto
    | invalidv =>
      simp [preorder, specKids] at hpre
    | othrv t a =>
      simp [preorder, specKids] at hpre

theorem Walk_eq_walkValue {σ : Type} (w : OW.Walker) (cb : OW.Cb σ) (s : σ)
    (heap : Heap) (fuel : Nat) (rv : RVal) :
    OW.Walk w cb s heap fuel (some rv) =
      OW.walkValue w cb heap fuel (OW.newWalkerInfo w ⟨rv, false⟩) (OW.freshState s) := by
  simp [OW.Walk, OW.walk, OW.checkValue]

/-- C1: for every acyclic composite value (one whose pre-order enumeration
terminates) whose addressable nodes carry pairwise distinct (address, static
type) pairs, `Walk` invokes the callback exactly once per node of the value
graph, in depth-first pre-order — parent before children, array and slice
elements in index order, struct fields in declared order, each map key
immediately before its paired value — and two nodes sharing an address but
differing in static type are each visited once, because the repeat-visit key
is the (address, static type) pair. -/
theorem c1_walk_preorder_exactly_once {σ : Type} (w : OW.Walker) (cb : OW.Cb σ)
    (s : σ) (heap : Heap) (fuel : Nat) (rv : RVal) (l : List RefVal)
    (hcb : ∀ s' i, (cb s' i).2 = none)
    (hpre : preorder heap fuel (⟨rv, false⟩ : RefVal) = some l)
    (hnd : (addressedKeys l).Nodup) :
    ∃ st', OW.Walk w cb s heap fuel (some rv) = some (st', none) ∧
      st'.trace.map (fun i => i.value) = l := by
  obtain ⟨st', hw, htr, _⟩ :=
    walk_pre_aux w cb heap hcb fuel ⟨rv, false⟩ l (OW.freshState s)
      (OW.newWalkerInfo w ⟨rv, false⟩) hpre hnd
      (fun p _ => by simp [OW.freshState]) rfl rfl (newWalkerInfo_dp w ⟨rv, false⟩)
  refine ⟨st', ?_, ?_⟩
  · rw [Walk_eq_walkValue]
    exact hw
  · simpa [OW.freshState] using htr

/-- Witness for C1 at a concrete input: a pointer to a struct whose first
field shares the struct's address (100) under a different static type, so the
(address, type) keys are (100,1), (100,2), (108,3) — distinct as pairs though
two share the address — and the callback fires exactly once per node, in
pre-order. -/
theorem c1_witness :
    ∃ st', OW.Walk { LoopProtection := true, UnsafeReadDirectPtr := false }
        (fun (n : Nat) _ => (n + 1, none)) 0
        [(100, RVal.strct 1 100 [RVal.scalar 2 100, RVal.scalar 3 108])] 5
        (some (RVal.ptrv 9 0 (some 100))) = some (st', none) ∧
      st'.trace.map (fun i => i.value) =
        [⟨.ptrv 9 0 (some 100), false⟩,
         ⟨.strct 1 100 [RVal.scalar 2 100, RVal.scalar 3 108], true⟩,
         ⟨.scalar 2 100, true⟩, ⟨.scalar 3 108, true⟩] :=
  c1_walk_preorder_exactly_once _ _ _ _ _ _ _ (fun _ _ => rfl) rfl (by decide)

def cycHeap (tS tP : TypeId) (a : Addr) : Heap :=
  [(a, .strct tS a [.ptrv tP a (some a)])]

def cycRoot (tR : TypeId) (a : Addr) : RVal := .ptrv tR 0 (some a)

/-- Callback that succeeds until its N-th invocation, which returns the
non-skip error `cb ecode`; its state counts invocations. -/
def cbErrAt (N ecode : Nat) : OW.Cb Nat :=
  fun n _ => (n + 1, if N ≤ n + 1 then some (.cb ecode) else none)

/-- Walker configuration with loop protection disabled. -/
def wOff : OW.Walker := { LoopProtection := false, UnsafeReadDirectPtr := false }

/-- Projection of a walker outcome to the observables used in the
counting arguments: callback count, number of callback invocations recorded,
visited table, returned error. -/
def projR (r : OW.WState Nat × Option WErr) :
    Nat × Nat × List (Addr × TypeId) × Option WErr :=
  (r.1.cbState, r.1.trace.length, r.1.visited, r.2)

theorem newWalkerInfo_value (w : OW.Walker) (v : RefVal) :
    (OW.newWalkerInfo w v).value = v := rfl

/-- Propagation of a child's outcome through a handler loop: fuel exhaustion
and errors pass through, success continues (here: ends the singleton loop). -/
def passErr (x : OW.Res Nat) : OW.Res Nat :=
  match x with
  | none => none
  | some (st', some e) => some (st', some e)
  | some (st', none) => some (st', none)

theorem runList_single (step : RVal → OW.WState Nat → OW.Res Nat) (f : RVal)
    (st : OW.WState Nat) :
    OW.runList step [f] st = passErr (step f st) := by
  rcases h : step f st with _ | ⟨st', _ | e⟩ <;> simp [OW.runList, passErr, h]

theorem map_projR_passErr (x : OW.Res Nat) (N len : Nat)
    (vis : List (Addr × TypeId)) (e : WErr)
    (h : x.map projR = some (N, len, vis, some e)) :
    (passErr x).map projR = some (N, len, vis, some e) := by
  rcases x with _ | ⟨st', _ | e'⟩ <;> simp_all [passErr, projR]

theorem cyc_steady (tS tP : TypeId) (a : Addr) (N ecode : Nat) (ha : a ≠ 0) :
    ∀ m, 1 ≤ m → ∀ (info : OW.WalkInfo) (st : OW.WState Nat),
      info.value = ⟨.strct tS a [.ptrv tP a (some a)], true⟩ →
      info.DirectPointer = a →
      (a, tS) ∈ st.visited → (a, tP) ∈ st.visited →
      st.cbState + m = N →
      (OW.walkValue wOff (cbErrAt N ecode) (cycHeap tS tP a) (m + 1) info st).map projR =
        some (N, st.trace.length + m, st.visited, some (.cb ecode)) := by
  intro m
  induction m using Nat.strong_induction_on with
  | _ m IH =>
    rcases m with _ | _ | _ | m₃
    · omega
    · -- m = 1 : the struct node's callback is the N-th invocation
      intro _ info st hval hdp hmS hmP hc
      have hmem : (info.DirectPointer, info.value.val.ty) ∈ st.visited := by
        rw [hval, hdp]; exact hmS
      rw [walkValue_succ_revisit_unprotected wOff (cbErrAt N ecode) (cycHeap tS tP a)
        _ info st (by rw [hdp]; exact ha) hmem rfl]
      simp [projR, OW.kindRoute, hval, RVal.kind, OW.walkStruct, OW.callCb, cbErrAt,
        show N ≤ st.cbState + 1 from by omega, show st.cbState + 1 = N from by omega]
    · -- m = 2 : struct callback ok, the field pointer's callback errors
      intro _ info st hval hdp hmS hmP hc
      have hmem : (info.DirectPointer, info.value.val.ty) ∈ st.visited := by
        rw [hval, hdp]; exact hmS
      rw [walkValue_succ_revisit_unprotected wOff (cbErrAt N ecode) (cycHeap tS tP a)
        _ info st (by rw [hdp]; exact ha) hmem rfl]
      simp [projR, OW.kindRoute, hval, RVal.kind, OW.walkStruct, OW.callCb, cbErrAt,
        OW.runList, OW.walkValue, OW.loopDetector, OW.newWalkerInfo,
        OW.getDirectPointer, OW.walkPtr, wOff, RVal.structFields, RVal.ty, RVal.addr,
        ha, hmP, RVal.ptrIsNil,
        show ¬(N ≤ st.cbState + 1) from by omega,
        show N ≤ st.cbState + 1 + 1 from by omega,
        show st.cbState + 1 + 1 = N from by omega]
    · -- m = m₃ + 3 : struct and field callbacks succeed, the cycle re-enters
      intro _ info st hval hdp hmS hmP hc
      have hmem : (info.DirectPointer, info.value.val.ty) ∈ st.visited := by
        rw [hval, hdp]; exact hmS
      have comp₂ : ∀ st₄ : OW.WState Nat, st₄.cbState = st.cbState + 2 →
          st₄.visited = st.visited → st₄.trace.length = st.trace.length + 2 →
          (OW.walkValue wOff (cbErrAt N ecode)
              [(a, RVal.strct tS a [RVal.ptrv tP a (some a)])] (m₃ + 2)
              (OW.newWalkerInfo wOff ⟨.strct tS a [.ptrv tP a (some a)], true⟩)
              st₄).map projR =
            some (N, st.trace.length + (m₃ + 1 + 1 + 1), st.visited, some (.cb ecode)) := by
        intro st₄ h1 h2 h3
        rw [show st.trace.length + (m₃ + 1 + 1 + 1) = st₄.trace.length + (m₃ + 1) from by
          omega]
        rw [show (st.visited : List (Addr × TypeId)) = st₄.visited from h2.symm]
        exact IH (m₃ + 1) (by omega) (by omega) _ st₄
          (newWalkerInfo_value wOff ⟨.strct tS a [.ptrv tP a (some a)], true⟩)
          (by rw [newWalkerInfo_dp]; simp [dpSafe, RVal.addr])
          (by rw [h2]; exact hmS) (by rw [h2]; exact hmP) (by omega)
      have comp₁ : ∀ st₂ : OW.WState Nat, st₂.cbState = st.cbState + 1 →
          st₂.visited = st.visited → st₂.trace.length = st.trace.length + 1 →
          (passErr (OW.walkValue wOff (cbErrAt N ecode)
              [(a, RVal.strct tS a [RVal.ptrv tP a (some a)])] (m₃ + 3)
              (OW.newWalkerInfo wOff ⟨.ptrv tP a (some a), true⟩) st₂)).map projR =
            some (N, st.trace.length + (m₃ + 1 + 1 + 1), st.visited, some (.cb ecode)) := by
        intro st₂ h1 h2 h3
        rw [walkValue_succ_revisit_unprotected wOff (cbErrAt N ecode)
          [(a, RVal.strct tS a [RVal.ptrv tP a (some a)])] _ _ _ ?hdpF ?hmemF rfl]
        case hdpF =>
          rw [newWalkerInfo_dp]
          simpa [dpSafe, RVal.addr] using ha
        case hmemF =>
          rw [newWalkerInfo_dp, newWalkerInfo_value]
          rw [h2]
          simpa [dpSafe, RVal.addr, RVal.ty] using hmP
        simp only [OW.kindRoute, newWalkerInfo_value, RVal.kind, OW.walkPtr, OW.callCb,
          cbErrAt, RVal.ptrIsNil, Option.isNone_some, Bool.false_eq_true, if_false,
          ptrElem, List.lookup, beq_self_eq_true, Option.map_some', h1]
        rw [if_neg (show ¬(N ≤ st.cbState + 1 + 1) from by omega)]
        apply map_projR_passErr
        apply comp₂
        · rfl
        · exact h2
        · simp [h3]
      rw [walkValue_succ_revisit_unprotected wOff (cbErrAt N ecode) (cycHeap tS tP a)
        _ info st (by rw [hdp]; exact ha) hmem rfl]
      simp only [OW.kindRoute, hval, RVal.kind, OW.walkStruct, OW.callCb, cbErrAt,
        RVal.structFields]
      rw [if_neg (show ¬(N ≤ st.cbState + 1) from by omega)]
      simp only [runList_single]
      apply comp₁
      · rfl
      · rfl
      · simp

/-- Projection of a walker outcome to callback count, invocation count, and
returned error. -/
def projT (r : OW.WState Nat × Option WErr) : Nat × Nat × Option WErr :=
  (r.1.cbState, r.1.trace.length, r.2)

theorem map_projT_passErr (x : OW.Res Nat) (N len : Nat) (e : WErr)
    (h : x.map projT = some (N, len, some e)) :
    (passErr x).map projT = some (N, len, some e) := by
  rcases x with _ | ⟨st', _ | e'⟩ <;> simp_all [passErr, projT]

theorem cyc_noprot_walk (tR tS tP : TypeId) (a : Addr) (N ecode : Nat)
    (ha : a ≠ 0) (htne : tS ≠ tP) (hN : 1 ≤ N) :
    ∃ fuel, (OW.Walk wOff (cbErrAt N ecode) 0 (cycHeap tS tP a) fuel
        (some (cycRoot tR a))).map projT =
      some (N, N, some (.cb ecode)) := by
  rcases N with _ | _ | _ | n
  · omega
  · refine ⟨2, ?_⟩
    rw [Walk_eq_walkValue]
    simp [projT, OW.walkValue, OW.loopDetector, OW.kindRoute, OW.walkPtr, OW.callCb,
      cbErrAt, OW.freshState, OW.newWalkerInfo, OW.getDirectPointer, wOff, cycRoot,
      RVal.kind, RVal.ptrIsNil, ptrElem, cycHeap, List.lookup, RVal.ty, RVal.addr, ha]
  · refine ⟨3, ?_⟩
    rw [Walk_eq_walkValue]
    simp [projT, OW.walkValue, OW.loopDetector, OW.kindRoute, OW.walkPtr, OW.walkStruct,
      OW.callCb, cbErrAt, OW.freshState, OW.newWalkerInfo, OW.getDirectPointer, wOff,
      cycRoot, RVal.kind, RVal.ptrIsNil, ptrElem, cycHeap, List.lookup, RVal.ty,
      RVal.addr, ha]
  · rcases n with _ | n
    · refine ⟨4, ?_⟩
      rw [Walk_eq_walkValue]
      simp [projT, OW.walkValue, OW.loopDetector, OW.kindRoute, OW.walkPtr,
        OW.walkStruct, OW.callCb, cbErrAt, OW.freshState, OW.newWalkerInfo,
        OW.getDirectPointer, wOff, cycRoot, RVal.kind, RVal.ptrIsNil, ptrElem, cycHeap,
        List.lookup, RVal.ty, RVal.addr, RVal.structFields, OW.runList, ha,
        Ne.symm htne]
    · have hN4 : n + 1 + 1 + 1 + 1 = n + 4 := by omega
      rw [hN4]
      refine ⟨n + 4 + 1, ?_⟩
      have comp : ∀ st₄ : OW.WState Nat, st₄.cbState = 3 →
          (a, tS) ∈ st₄.visited → (a, tP) ∈ st₄.visited → st₄.trace.length = 3 →
          (OW.walkValue wOff (cbErrAt (n + 4) ecode)
              [(a, RVal.strct tS a [RVal.ptrv tP a (some a)])] (n + 2)
              (OW.newWalkerInfo wOff ⟨.strct tS a [.ptrv tP a (some a)], true⟩)
              st₄).map projT =
            some (n + 4, n + 4, some (.cb ecode)) := by
        intro st₄ h1 h2 h3 h4
        have hsteady := cyc_steady tS tP a (n + 4) ecode ha (n + 1) (by omega) _ st₄
          (newWalkerInfo_value wOff ⟨.strct tS a [.ptrv tP a (some a)], true⟩)
          (by rw [newWalkerInfo_dp]; simp [dpSafe, RVal.addr]) h2 h3 (by omega)
        rw [show (n + 2 : Nat) = (n + 1) + 1 from rfl,
          show [(a, RVal.strct tS a [RVal.ptrv tP a (some a)])] = cycHeap tS tP a from
            rfl]
        cases hres : OW.walkValue wOff (cbErrAt (n + 4) ecode) (cycHeap tS tP a)
            ((n + 1) + 1)
            (OW.newWalkerInfo wOff ⟨.strct tS a [.ptrv tP a (some a)], true⟩) st₄ with
        | none => rw [hres] at hsteady; simp at hsteady
        | some r =>
          rw [hres] at hsteady
          obtain ⟨st', err⟩ := r
          simp only [Option.map_some', projR, Option.some.injEq, Prod.mk.injEq] at hsteady
          simp only [Option.map_some', projT, Option.some.injEq, Prod.mk.injEq]
          refine ⟨hsteady.1, ?_, hsteady.2.2.2⟩
          omega
      rw [Walk_eq_walkValue]
      rw [walkValue_succ_dp0 _ _ _ _ _ _ (by rw [newWalkerInfo_dp]; simp [dpSafe]) rfl]
      simp only [OW.kindRoute, newWalkerInfo_value, cycRoot, RVal.kind, OW.walkPtr,
        OW.callCb, cbErrAt, OW.freshState, RVal.ptrIsNil, Option.isNone_some,
        Bool.false_eq_true, if_false, ptrElem, cycHeap, List.lookup, beq_self_eq_true,
        Option.map_some', show ¬(n + 4 ≤ 0 + 1) from by omega]
      rw [walkValue_succ_fresh _ _ _ _ _ _ ?hdpS ?hmemS rfl]
      case hdpS =>
        rw [newWalkerInfo_dp]
        simpa [dpSafe, RVal.addr] using ha
      case hmemS => simp
      simp only [OW.kindRoute, newWalkerInfo_value, RVal.kind, OW.walkStruct, OW.callCb,
        cbErrAt, RVal.structFields, newWalkerInfo_dp, dpSafe, RVal.addr, RVal.ty,
        eq_self_iff_true, if_true, if_false, runList_single,
        show ¬(n + 4 ≤ 0 + 1 + 1) from by omega]
      rw [walkValue_succ_fresh _ _ _ _ _ _ ?hdpF ?hmemF rfl]
      case hdpF =>
        rw [newWalkerInfo_dp]
        simpa [dpSafe, RVal.addr] using ha
      case hmemF =>
        rw [newWalkerInfo_dp, newWalkerInfo_value]
        simp [dpSafe, RVal.addr, RVal.ty, Ne.symm htne]
      simp only [OW.kindRoute, newWalkerInfo_value, RVal.kind, OW.walkPtr, OW.callCb,
        cbErrAt, RVal.ptrIsNil, Option.isNone_some, Bool.false_eq_true, if_false,
        ptrElem, List.lookup, beq_self_eq_true, Option.map_some', newWalkerInfo_dp,
        dpSafe, RVal.addr, RVal.ty, eq_self_iff_true, if_true, if_false,
        show ¬(n + 4 ≤ 0 + 1 + 1 + 1) from by omega]
      apply map_projT_passErr
      apply comp
      · rfl
      · simp
      · simp
      · simp

/-- C2: with cycle protection enabled, a node whose (address, static type)
pair is already recorded is neither passed to the callback nor expanded (the
state, including the ghost trace, is returned unchanged); consequently a walk
of a self-referential structure — a heap node whose field points back to
itself — terminates, with the callback firing exactly once for the cyclic
edge's target; with protection disabled the callback fires on every revisit,
and a callback returning a non-skip error on its N-th invocation stops the
walk at exactly N invocations, that error being returned. -/
theorem c2_cycle_protection :
    (∀ (σ : Type) (w : OW.Walker) (cb : OW.Cb σ) (heap : Heap) (fuel : Nat)
        (info : OW.WalkInfo) (st : OW.WState σ),
      w.LoopProtection = true → info.DirectPointer ≠ 0 →
      (info.DirectPointer, info.value.val.ty) ∈ st.visited →
      OW.walkValue w cb heap (fuel + 1) info st = some (st, none)) ∧
    (∀ (σ : Type) (cb : OW.Cb σ) (s : σ) (tR tS tP : TypeId) (a : Addr),
      (∀ s' i, (cb s' i).2 = none) → a ≠ 0 → tS ≠ tP →
      (OW.Walk OW.New cb s (cycHeap tS tP a) 4 (some (cycRoot tR a))).map
          (fun r => (r.1.trace.map (fun i => i.value.val), r.2)) =
        some ([cycRoot tR a, .strct tS a [.ptrv tP a (some a)],
          .ptrv tP a (some a)], none)) ∧
    (∀ (tR tS tP : TypeId) (a : Addr) (N ecode : Nat),
      a ≠ 0 → tS ≠ tP → 1 ≤ N →
      ∃ fuel, (OW.Walk wOff (cbErrAt N ecode) 0 (cycHeap tS tP a) fuel
          (some (cycRoot tR a))).map projT =
        some (N, N, some (.cb ecode))) := by
  refine ⟨?_, ?_, ?_⟩
  · intro σ w cb heap fuel info st hprot hdp hmem
    exact walkValue_succ_revisit_protected w cb heap fuel info st hdp hmem hprot
  · intro σ cb s tR tS tP a hcb ha htne
    simp [OW.Walk, OW.walk, OW.checkValue, OW.walkValue, OW.kindRoute, OW.walkPtr,
      OW.walkStruct, OW.loopDetector, OW.runList, OW.callCb, OW.newWalkerInfo,
      OW.getDirectPointer, OW.freshState, OW.New, RVal.kind, RVal.ptrIsNil, ptrElem,
      RVal.structFields, RVal.ty, RVal.addr, cycHeap, cycRoot, List.lookup, hcb, ha,
      htne, Ne.symm htne]
  · intro tR tS tP a N ecode ha htne hN
    exact cyc_noprot_walk tR tS tP a N ecode ha htne hN

/-- Witness for C2 at concrete inputs: a protected revisit of an addressed
scalar is silently suppressed; the protected walk of the self-referential
struct at address 9 fires the callback three times, once per node; with
protection off and a callback erroring on its 7th call, the walk stops at
exactly 7 invocations with that error. -/
theorem c2_witness :
    OW.walkValue OW.New (fun (n : Nat) _ => (n + 1, none)) [] 3
        ⟨⟨.scalar 7 5, true⟩, 5, false, false, false⟩
        ⟨0, [(5, 7)], []⟩ = some (⟨0, [(5, 7)], []⟩, none) ∧
    (OW.Walk OW.New (fun (n : Nat) _ => (n + 1, none)) 0 (cycHeap 1 2 9) 4
        (some (cycRoot 3 9))).map
        (fun r => (r.1.trace.map (fun i => i.value.val), r.2)) =
      some ([cycRoot 3 9, .strct 1 9 [.ptrv 2 9 (some 9)], .ptrv 2 9 (some 9)],
        none) ∧
    (∃ fuel, (OW.Walk wOff (cbErrAt 7 0) 0 (cycHeap 1 2 9) fuel
        (some (cycRoot 3 9))).map projT = some (7, 7, some (.cb 0))) :=
  ⟨c2_cycle_protection.1 Nat OW.New (fun n _ => (n + 1, none)) [] 2
      ⟨⟨.scalar 7 5, true⟩, 5, false, false, false⟩ ⟨0, [(5, 7)], []⟩
      rfl (by decide) (by decide),
   c2_cycle_protection.2.1 Nat (fun n _ => (n + 1, none)) 0 3 1 2 9
      (fun _ _ => rfl) (by decide) (by decide),
   c2_cycle_protection.2.2 3 1 2 9 7 0 (by decide) (by decide) (by decide)⟩

/-- Invariant of a walk driven by `cbErrAt N c`: the number of recorded
callback invocations equals the callback's count, the count never exceeds N,
and the walk's result is the error `cb c` exactly when the count reached N. -/
def errInv (N c : Nat) (st' : OW.WState Nat) (r : Option WErr) : Prop :=
  st'.trace.length = st'.cbState ∧ st'.cbState ≤ N ∧
    (st'.cbState = N ↔ r = some (.cb c))

theorem callCb_errAt (N c : Nat) (st : OW.WState Nat) (info : OW.WalkInfo)
    (h1 : st.cbState < N) (h2 : st.trace.length = st.cbState) :
    (OW.callCb (cbErrAt N c) st info).1.cbState = st.cbState + 1 ∧
    (OW.callCb (cbErrAt N c) st info).1.trace.length = st.cbState + 1 ∧
    (OW.callCb (cbErrAt N c) st info).1.visited = st.visited ∧
    ((OW.callCb (cbErrAt N c) st info).2 = some (.cb c) ↔ st.cbState + 1 = N) ∧
    ((OW.callCb (cbErrAt N c) st info).2 = none ∨
      (OW.callCb (cbErrAt N c) st info).2 = some (.cb c)) := by
  by_cases hle : N ≤ st.cbState + 1 <;>
    simp [OW.callCb, cbErrAt, hle, h2] <;> omega

theorem runList_errAt {α : Type} (N c : Nat) (step : α → OW.WState Nat → OW.Res Nat)
    (hstep : ∀ x st st' r, st.cbState < N → st.trace.length = st.cbState →
      step x st = some (st', r) → errInv N c st' r) :
    ∀ (l : List α) (st st' : OW.WState Nat) (r : Option WErr),
      st.cbState < N → st.trace.length = st.cbState →
      OW.runList step l st = some (st', r) → errInv N c st' r := by
  intro l
  induction l with
  | nil =>
    intro st st' r h1 h2 hw
    simp only [OW.runList] at hw
    cases hw
    exact ⟨h2, by omega, by simp; omega⟩
  | cons x xs ih =>
    intro st st' r h1 h2 hw
    simp only [OW.runList] at hw
    rcases hstp : step x st with _ | ⟨st₁, _ | e⟩
    · rw [hstp] at hw
      cases hw
    · rw [hstp] at hw
      obtain ⟨i1, i2, i3⟩ := hstep x st st₁ none h1 h2 hstp
      have hne : st₁.cbState ≠ N := fun h => by simpa using i3.mp h
      exact ih st₁ st' r (by omega) i1 hw
    · rw [hstp] at hw
      have h₃ := hstep x st st₁ (some e) h1 h2 hstp
      cases hw
      exact h₃

theorem callCb_errAt' (N c : Nat) (st st₂ : OW.WState Nat) (r₂ : Option WErr)
    (info : OW.WalkInfo) (h1 : st.cbState < N) (h2 : st.trace.length = st.cbState)
    (hcb : OW.callCb (cbErrAt N c) st info = (st₂, r₂)) :
    st₂.cbState = st.cbState + 1 ∧ st₂.trace.length = st.cbState + 1 ∧
    (r₂ = some (.cb c) ↔ st.cbState + 1 = N) ∧
    (r₂ = none ∨ r₂ = some (.cb c)) := by
  have h := callCb_errAt N c st info h1 h2
  rw [hcb] at h
  simpa using ⟨h.1, h.2.1, h.2.2.2⟩

theorem walk_errAt_aux (N c : Nat) (w : OW.Walker) (heap : Heap) :
    ∀ (fuel : Nat) (info : OW.WalkInfo) (st st' : OW.WState Nat) (r : Option WErr),
      st.cbState < N → st.trace.length = st.cbState →
      OW.walkValue w (cbErrAt N c) heap fuel info st = some (st', r) →
      errInv N c st' r := by
  intro fuel
  induction fuel with
  | zero =>
    intro info st st' r _ _ hw
    cases hw
  | succ fuel IH =>
    intro info st st' r h1 h2 hw
    simp only [OW.walkValue] at hw
    generalize hq1 : (OW.loopDetector st.visited info).1 = info₁ at hw
    generalize hq2 : (OW.loopDetector st.visited info).2 = vis₁ at hw
    by_cases hv : (info₁.IsVisited && w.LoopProtection) = true
    · rw [if_pos hv] at hw
      cases hw
      exact ⟨h2, by simp; omega, by simp; omega⟩
    · rw [if_neg hv] at hw
      have hloop : ∀ (mk : RVal → OW.WalkInfo) (elems : List RVal)
          (st₂ : OW.WState Nat), st₂.cbState < N → st₂.trace.length = st₂.cbState →
          OW.runList (fun item stx =>
            OW.walkValue w (cbErrAt N c) heap fuel (mk item) stx) elems st₂ =
            some (st', r) → errInv N c st' r := by
        intro mk elems st₂ h1' h2' hw
        exact runList_errAt N c _
          (fun x stx stx' rx hx1 hx2 hxw => IH (mk x) stx stx' rx hx1 hx2 hxw)
          elems st₂ st' r h1' h2' hw
      have hsimple : ∀ (info₂ : OW.WalkInfo),
          OW.walkSimple (cbErrAt N c) info₂ { st with visited := vis₁ } =
            some (st', r) → errInv N c st' r := by
        intro info₂ hw
        rcases hcb2 : OW.callCb (cbErrAt N c) { st with visited := vis₁ } info₂ with
          ⟨st₂, r₂⟩
        simp only [OW.walkSimple, hcb2] at hw
        obtain ⟨c1, c2, c3, cems⟩ :=
          callCb_errAt' N c { st with visited := vis₁ } st₂ r₂ info₂ h1 h2 hcb2
        simp only [] at c1 c2 c3
        cases hw
        exact ⟨by omega, by omega, by rw [c1]; exact c3.symm⟩
      have hptr : ∀ (info₂ : OW.WalkInfo),
          OW.walkPtr (OW.walkValue w (cbErrAt N c) heap fuel) w (cbErrAt N c) heap
            info₂ { st with visited := vis₁ } = some (st', r) → errInv N c st' r := by
        intro info₂ hw
        rcases hcb2 : OW.callCb (cbErrAt N c) { st with visited := vis₁ } info₂ with
          ⟨st₂, r₂⟩
        simp only [OW.walkPtr, hcb2] at hw
        obtain ⟨c1, c2, c3, cems⟩ :=
          callCb_errAt' N c { st with visited := vis₁ } st₂ r₂ info₂ h1 h2 hcb2
        simp only [] at c1 c2 c3
        rcases cems with rfl | rfl
        · simp only [] at hw
          have h1' : st₂.cbState < N := by
            have : ¬(st.cbState + 1 = N) := fun h => by simp [h] at c3
            omega
          have h2' : st₂.trace.length = st₂.cbState := by omega
          by_cases hnil : info₂.value.val.ptrIsNil = true
          · rw [if_pos hnil] at hw
            cases hw
            exact ⟨h2', by omega, by simp; omega⟩
          · rw [if_neg hnil] at hw
            rcases hel : ptrElem heap info₂.value.val with _ | elemRef
            · rw [hel] at hw
              simp only [] at hw
              cases hw
              exact ⟨h2', by omega, by simp; omega⟩
            · rw [hel] at hw
              simp only [] at hw
              exact IH _ st₂ st' r h1' h2' hw
        · simp only [] at hw
          rw [if_neg (by simp : ¬(WErr.cb c = WErr.skip))] at hw
          have hN : st.cbState + 1 = N := c3.mp rfl
          cases hw
          exact ⟨by omega, by omega, by simp; omega⟩
      have harr : ∀ (info₂ : OW.WalkInfo),
          OW.walkArray (OW.walkValue w (cbErrAt N c) heap fuel) w (cbErrAt N c)
            info₂ { st with visited := vis₁ } = some (st', r) → errInv N c st' r := by
        intro info₂ hw
        rcases hcb2 : OW.callCb (cbErrAt N c) { st with visited := vis₁ } info₂ with
          ⟨st₂, r₂⟩
        simp only [OW.walkArray, hcb2] at hw
        obtain ⟨c1, c2, c3, cems⟩ :=
          callCb_errAt' N c { st with visited := vis₁ } st₂ r₂ info₂ h1 h2 hcb2
        simp only [] at c1 c2 c3
        rcases cems with rfl | rfl
        · simp only [] at hw
          have h1' : st₂.cbState < N := by
            have : ¬(st.cbState + 1 = N) := fun h => by simp [h] at c3
            omega
          exact hloop _ _ st₂ h1' (by omega) hw
        · simp only [] at hw
          rw [if_neg (by simp : ¬(WErr.cb c = WErr.skip))] at hw
          have hN : st.cbState + 1 = N := c3.mp rfl
          cases hw
          exact ⟨by omega, by omega, by simp; omega⟩
      have hslice : ∀ (info₂ : OW.WalkInfo),
          OW.walkSlice (OW.walkValue w (cbErrAt N c) heap fuel) w (cbErrAt N c)
            info₂ { st with visited := vis₁ } = some (st', r) → errInv N c st' r := by
        intro info₂ hw
        rcases hcb2 : OW.callCb (cbErrAt N c) { st with visited := vis₁ } info₂ with
          ⟨st₂, r₂⟩
        simp only [OW.walkSlice, hcb2] at hw
        obtain ⟨c1, c2, c3, cems⟩ :=
          callCb_errAt' N c { st with visited := vis₁ } st₂ r₂ info₂ h1 h2 hcb2
        simp only [] at c1 c2 c3
        rcases cems with rfl | rfl
        · simp only [] at hw
          have h1' : st₂.cbState < N := by
            have : ¬(st.cbState + 1 = N) := fun h => by simp [h] at c3
            omega
          exact hloop _ _ st₂ h1' (by omega) hw
        · simp only [] at hw
          rw [if_neg (by simp : ¬(WErr.cb c = WErr.skip))] at hw
          have hN : st.cbState + 1 = N := c3.mp rfl
          cases hw
          exact ⟨by omega, by omega, by simp; omega⟩
      have hstruct : ∀ (info₂ : OW.WalkInfo),
          OW.walkStruct (OW.walkValue w (cbErrAt N c) heap fuel) w (cbErrAt N c)
            info₂ { st with visited := vis₁ } = some (st', r) → errInv N c st' r := by
        intro info₂ hw
        rcases hcb2 : OW.callCb (cbErrAt N c) { st with visited := vis₁ } info₂ with
          ⟨st₂, r₂⟩
        simp only [OW.walkStruct, hcb2] at hw
        obtain ⟨c1, c2, c3, cems⟩ :=
          callCb_errAt' N c { st with visited := vis₁ } st₂ r₂ info₂ h1 h2 hcb2
        simp only [] at c1 c2 c3
        rcases cems with rfl | rfl
        · simp only [] at hw
          have h1' : st₂.cbState < N := by
            have : ¬(st.cbState + 1 = N) := fun h => by simp [h] at c3
            omega
          exact hloop _ _ st₂ h1' (by omega) hw
        · simp only [] at hw
          rw [if_neg (by simp : ¬(WErr.cb c = WErr.skip))] at hw
          have hN : st.cbState + 1 = N := c3.mp rfl
          cases hw
          exact ⟨by omega, by omega, by simp; omega⟩
      have hmap : ∀ (info₂ : OW.WalkInfo),
          OW.walkMap (OW.walkValue w (cbErrAt N c) heap fuel) w (cbErrAt N c)
            info₂ { st with visited := vis₁ } = some (st', r) → errInv N c st' r := by
        intro info₂ hw
        rcases hcb2 : OW.callCb (cbErrAt N c) { st with visited := vis₁ } info₂ with
          ⟨st₂, r₂⟩
        simp only [OW.walkMap, hcb2] at hw
        obtain ⟨c1, c2, c3, cems⟩ :=
          callCb_errAt' N c { st with visited := vis₁ } st₂ r₂ info₂ h1 h2 hcb2
        simp only [] at c1 c2 c3
        rcases cems with rfl | rfl
        · simp only [] at hw
          have h1' : st₂.cbState < N := by
            have : ¬(st.cbState + 1 = N) := fun h => by simp [h] at c3
            omega
          have h2' : st₂.trace.length = st₂.cbState := by omega
          by_cases hnil : info₂.value.val.mapIsNil = true
          · rw [if_pos hnil] at hw
            cases hw
            exact ⟨h2', by omega, by simp; omega⟩
          · rw [if_neg hnil] at hw
            refine runList_errAt N c _ ?_ _ st₂ st' r h1' h2' hw
            intro kv stx stx' rx hx1 hx2 hxw
            simp only [] at hxw
            rcases hkk : OW.walkValue w (cbErrAt N c) heap fuel
                { OW.newWalkerInfo w ⟨kv.1, false⟩ with isMapKey := true } stx with
              _ | ⟨stk, rk⟩
            · rw [hkk] at hxw
              cases hxw
            · rw [hkk] at hxw
              obtain ⟨k1, k2, k3⟩ := IH _ stx stk rk hx1 hx2 hkk
              rcases rk with _ | e
              · simp only [] at hxw
                have hk1 : stk.cbState < N := by
                  have : ¬(stk.cbState = N) := fun h => by simpa using k3.mp h
                  omega
                exact IH _ stk stx' rx hk1 k1 hxw
              · simp only [] at hxw
                by_cases hsk : e = WErr.skip
                · subst hsk
                  rw [if_pos rfl] at hxw
                  have : ¬(stk.cbState = N) := fun h => by simpa using k3.mp h
                  cases hxw
                  exact ⟨k1, k2, by simp; omega⟩
                · rw [if_neg hsk] at hxw
                  have h₃ : errInv N c stk (some e) := ⟨k1, k2, k3⟩
                  cases hxw
                  exact h₃
        · simp only [] at hw
          rw [if_neg (by simp : ¬(WErr.cb c = WErr.skip))] at hw
          have hN : st.cbState + 1 = N := c3.mp rfl
          cases hw
          exact ⟨by omega, by omega, by simp; omega⟩
      rcases hk : info₁.value.val.kind
      all_goals rw [hk] at hw
      · simp only [OW.kindRoute] at hw
        cases hw
        exact ⟨h2, by simp; omega, by simp; omega⟩
      · simp only [OW.kindRoute] at hw
        exact harr info₁ hw
      · simp only [OW.kindRoute] at hw
        exact hptr info₁ hw
      · simp only [OW.kindRoute] at hw
        exact hptr info₁ hw
      · simp only [OW.kindRoute] at hw
        exact hmap info₁ hw
      · simp only [OW.kindRoute] at hw
        exact hslice info₁ hw
      · simp only [OW.kindRoute] at hw
        exact hsimple info₁ hw
      · simp only [OW.kindRoute] at hw
        exact hsimple info₁ hw
      · simp only [OW.kindRoute] at hw
        exact hsimple info₁ hw
      · simp only [OW.kindRoute] at hw
        exact hsimple info₁ hw
      · simp only [OW.kindRoute] at hw
        exact hstruct info₁ hw
      · simp only [OW.kindRoute] at hw
        cases hw
        exact ⟨h2, by simp; omega, by simp; omega⟩

theorem Walk_none_eq {σ : Type} (w : OW.Walker) (cb : OW.Cb σ) (s : σ)
    (heap : Heap) (fuel : Nat) :
    OW.Walk w cb s heap fuel none = some (OW.freshState s, none) := by
  simp [OW.Walk, OW.walk, OW.checkValue]

/-- C4: a callback returning the non-skip error `cb c` on its N-th invocation
aborts the walk immediately: whenever the walk returns, the callback was
invoked at most N times, and it was invoked exactly N times precisely when
the walk's result is that error, returned verbatim — so no node beyond the
error point is ever passed to the callback. -/
theorem c4_error_aborts (N c : Nat) (w : OW.Walker) (heap : Heap) (fuel : Nat)
    (v : Option RVal) (st' : OW.WState Nat) (r : Option WErr)
    (hN : 1 ≤ N)
    (hw : OW.Walk w (cbErrAt N c) 0 heap fuel v = some (st', r)) :
    st'.trace.length ≤ N ∧ (st'.trace.length = N ↔ r = some (.cb c)) := by
  rcases v with _ | rv
  · rw [Walk_none_eq] at hw
    cases hw
    refine ⟨by simp [OW.freshState], ?_⟩
    simp [OW.freshState]
    omega
  · rw [Walk_eq_walkValue] at hw
    obtain ⟨e1, e2, e3⟩ := walk_errAt_aux N c w heap fuel _ (OW.freshState 0) st' r
      (by simpa [OW.freshState] using hN) (by simp [OW.freshState]) hw
    exact ⟨by omega, by rw [e1]; exact e3⟩

/-- Witness for C4 at a concrete input: walking a three-field struct with a
callback erroring on its 2nd invocation stops after exactly 2 invocations
(the struct and its first field; the second and third fields are never
visited) and `Walk` returns the error verbatim. -/
theorem c4_witness :
    (⟨2, [], [⟨⟨.strct 1 0 [.scalar 2 0, .scalar 3 0, .scalar 4 0], false⟩, 0,
        false, false, false⟩,
      ⟨⟨.scalar 2 0, false⟩, 0, false, false, false⟩]⟩ : OW.WState Nat).trace.length
        ≤ 2 ∧
    ((⟨2, [], [⟨⟨.strct 1 0 [.scalar 2 0, .scalar 3 0, .scalar 4 0], false⟩, 0,
        false, false, false⟩,
      ⟨⟨.scalar 2 0, false⟩, 0, false, false, false⟩]⟩ : OW.WState Nat).trace.length
        = 2 ↔ some (WErr.cb 5) = some (WErr.cb 5)) :=
  c4_error_aborts 2 5 OW.New []
    9 (some (.strct 1 0 [.scalar 2 0, .scalar 3 0, .scalar 4 0])) _ _
    (by decide) rfl

/-- C6: if unsafe address reading is enabled and the startup self-check
failed, `walk` fails immediately with `ErrBadInternalReflectValueDetected`,
for every root (nil included), before any traversal and before the callback
is ever invoked: the state — including the ghost trace of callback
invocations — is returned untouched. -/
theorem c6_bad_internal_reflect_value {σ : Type} (w : OW.Walker) (cb : OW.Cb σ)
    (heap : Heap) (fuel : Nat) (v : Option RVal) (st : OW.WState σ)
    (hup : w.UnsafeReadDirectPtr = true) :
    OW.walk w cb heap fuel v false st = some (st, some .badInternalReflectValue) := by
  simp [OW.walk, hup]

/-- Witness for C6: with unsafe reading on and a failed self-check, walking a
non-nil scalar root returns the dedicated error with an untouched state. -/
theorem c6_witness :
    OW.walk { LoopProtection := true, UnsafeReadDirectPtr := true }
        (fun (n : Nat) _ => (n + 1, none)) [] 5 (some (.scalar 1 2))
        false (OW.freshState 0) =
      some (OW.freshState 0, some .badInternalReflectValue) :=
  c6_bad_internal_reflect_value _ _ _ _ _ _ rfl

/-- C7: `Walk` on a nil root returns success without ever invoking the
callback (the trace of the returned state is empty), for every session
configuration, callback, callback state, heap and fuel. -/
theorem c7_nil_root_noop {σ : Type} (w : OW.Walker) (cb : OW.Cb σ) (s : σ)
    (heap : Heap) (fuel : Nat) :
    OW.Walk w cb s heap fuel none = some (OW.freshState s, none) ∧
      (OW.freshState s).trace = [] := by
  exact ⟨Walk_none_eq w cb s heap fuel, rfl⟩

/-- C5: evaluation of the addressing policy.  Safe addressing gives every
non-addressable value a null direct pointer (first conjunct) and, for
addressable values, unsafe and safe addressing agree (second conjunct) — but
under unsafe addressing a non-addressable value also gets a null direct
pointer (fourth conjunct), although the unsafe read itself (`getDirectPointer`
with `UnsafeReadDirectPtr`) recovers its address (third conjunct): the
`CanAddr` guard in `newWalkerInfo` makes the unsafe branch unreachable for
exactly the values it is documented to serve. -/
theorem c5_unsafe_addressing_gap :
    (∀ (lp : Bool) (rv : RVal),
      (OW.newWalkerInfo ⟨lp, false⟩ ⟨rv, false⟩).DirectPointer = 0) ∧
    (∀ (lp lp' : Bool) (rv : RVal),
      (OW.newWalkerInfo ⟨lp, true⟩ ⟨rv, true⟩).DirectPointer =
        (OW.newWalkerInfo ⟨lp', false⟩ ⟨rv, true⟩).DirectPointer) ∧
    OW.getDirectPointer ⟨true, true⟩ false (.scalar 1 42) = 42 ∧
    (OW.newWalkerInfo ⟨true, true⟩ ⟨.scalar 1 42, false⟩).DirectPointer = 0 := by
  refine ⟨?_, ?_, rfl, rfl⟩
  · intro lp rv
    rw [newWalkerInfo_dp]
    simp [dpSafe]
  · intro lp lp' rv
    rw [newWalkerInfo_dp, newWalkerInfo_dp]

/-- C10: every `Walk` invocation owns a fresh, empty repeat-visit table:
`Walk` is by definition `walk` started from `freshState`, whose visited table
and trace are empty whatever came before — so two successive `Walk` calls on
the same walker and root produce the same outcome and callback trace; and the
freshness is semantically load-bearing — seeding a call with an earlier
call's final visited table (as the historical shared-state variant would)
changes the callback sequence, as the last conjunct shows on a pointer to a
struct whose (address, type) pair is already in the stale table. -/
theorem c10_fresh_state_per_walk :
    (∀ (σ : Type) (w : OW.Walker) (cb : OW.Cb σ) (s : σ) (heap : Heap)
        (fuel : Nat) (v : Option RVal),
      OW.Walk w cb s heap fuel v =
        OW.walk w cb heap fuel v OW.checkValue (OW.freshState s) ∧
      (OW.freshState s).visited = [] ∧ (OW.freshState s).trace = []) ∧
    (OW.Walk OW.New (fun (n : Nat) _ => (n + 1, none)) 0
        [(5, .strct 1 5 [])] 5 (some (.ptrv 2 0 (some 5))) =
      some (⟨2, [(5, 1)],
        [⟨⟨.ptrv 2 0 (some 5), false⟩, 0, false, false, false⟩,
         ⟨⟨.strct 1 5 [], true⟩, 5, false, false, false⟩]⟩, none) ∧
     OW.walkValue OW.New (fun (n : Nat) _ => (n + 1, none)) [(5, .strct 1 5 [])] 5
        (OW.newWalkerInfo OW.New ⟨.ptrv 2 0 (some 5), false⟩) ⟨0, [(5, 1)], []⟩ =
      some (⟨1, [(5, 1)],
        [⟨⟨.ptrv 2 0 (some 5), false⟩, 0, false, false, false⟩]⟩, none)) := by
  exact ⟨fun σ w cb s heap fuel v => ⟨rfl, rfl, rfl⟩, rfl, rfl⟩

/-- Counterexample to C3 as stated: (1) a callback returning the skip signal
at a scalar root makes `Walk` return `ErrSkip` to its caller as the walk's
error — the skip is not caught and the walk does not return success; (2) in a
map whose key is a struct, a skip returned at that key is caught by the
struct handler, so the entry's paired value IS still visited. -/
theorem c3_counterexample :
    OW.Walk OW.New (fun (n : Nat) _ => (n + 1, some .skip)) 0 [] 2
        (some (.scalar 1 0)) =
      some (⟨1, [], [⟨⟨.scalar 1 0, false⟩, 0, false, false, false⟩]⟩,
        some .skip) ∧
    (OW.Walk OW.New
        (fun (n : Nat) i =>
          (n + 1, if i.value.val.kind = RKind.struct_ then some .skip else none))
        0 [] 4 (some (.mapv 9 0 false [(.strct 1 0 [.scalar 7 0], .scalar 3 0)]))).map
        (fun r => (r.1.trace.map (fun i => i.value.val), r.2)) =
      some ([.mapv 9 0 false [(.strct 1 0 [.scalar 7 0], .scalar 3 0)],
             .strct 1 0 [.scalar 7 0], .scalar 3 0], none) := by
  exact ⟨rfl, rfl⟩

/-- Kinds whose handlers catch the skip signal. -/
def containerKinds : List RKind :=
  [.array, .interface_, .ptr, .map_, .slice, .struct_]

/-- C3 (amended): a skip signal returned at a node of container kind (array,
slice, map, struct, pointer, interface) is caught at that node: the walker
returns success there with exactly that one callback invocation recorded —
all descendants suppressed — so sibling traversal continues at the parent;
additionally, a skip at a map key of simple kind suppresses exactly that
entry's paired value, with later entries unaffected; a skip at a container
child of an array suppresses its descendants but not its array siblings.
(At simple-kind nodes that are not map keys the skip is not caught; see the
counterexample.) -/
theorem c3_skip_containment :
    (∀ (σ : Type) (w : OW.Walker) (cb : OW.Cb σ) (heap : Heap) (fuel : Nat)
        (info : OW.WalkInfo) (st : OW.WState σ),
      info.value.val.kind ∈ containerKinds →
      info.IsVisited = false →
      (info.DirectPointer ≠ 0 →
        (info.DirectPointer, info.value.val.ty) ∉ st.visited) →
      (cb st.cbState info).2 = some .skip →
      OW.walkValue w cb heap (fuel + 1) info st =
        some ({ st with cbState := (cb st.cbState info).1,
                        visited := (OW.loopDetector st.visited info).2,
                        trace := st.trace ++ [info] }, none)) ∧
    ((OW.Walk OW.New
        (fun (n : Nat) i =>
          (n + 1, if i.isMapKey ∧ i.value.val.ty = 1 then some .skip else none))
        0 [] 4
        (some (.mapv 9 0 false
          [(.scalar 1 0, .scalar 3 0), (.scalar 2 0, .scalar 4 0)]))).map
        (fun r => (r.1.trace.map (fun i => i.value.val), r.2)) =
      some ([.mapv 9 0 false [(.scalar 1 0, .scalar 3 0), (.scalar 2 0, .scalar 4 0)],
             .scalar 1 0, .scalar 2 0, .scalar 4 0], none)) ∧
    ((OW.Walk OW.New
        (fun (n : Nat) i =>
          (n + 1, if i.value.val.kind = RKind.struct_ then some .skip else none))
        0 [] 4
        (some (.arr 8 0 [.strct 5 0 [.scalar 6 0], .scalar 7 0]))).map
        (fun r => (r.1.trace.map (fun i => i.value.val), r.2)) =
      some ([.arr 8 0 [.strct 5 0 [.scalar 6 0], .scalar 7 0],
             .strct 5 0 [.scalar 6 0], .scalar 7 0], none)) := by
  refine ⟨?_, rfl, rfl⟩
  intro σ w cb heap fuel info st hkind hvis hfresh hcb
  have hstep : OW.walkValue w cb heap (fuel + 1) info st =
      OW.kindRoute (OW.walkValue w cb heap fuel) w cb heap info.value.val.kind info
        { st with visited := (OW.loopDetector st.visited info).2 } := by
    by_cases h0 : info.DirectPointer = 0
    · rw [walkValue_succ_dp0 w cb heap fuel info st h0 hvis,
        show (OW.loopDetector st.visited info).2 = st.visited from by
          simp [OW.loopDetector, h0]]
    · rw [walkValue_succ_fresh w cb heap fuel info st h0 (hfresh h0) hvis,
        show (OW.loopDetector st.visited info).2 =
            (info.DirectPointer, info.value.val.ty) :: st.visited from by
          simp [OW.loopDetector, h0, hfresh h0]]
  rw [hstep]
  simp only [containerKinds, List.mem_cons, List.not_mem_nil, or_false] at hkind
  rcases hkind with h | h | h | h | h | h
  all_goals rw [h]
  all_goals simp [OW.kindRoute, OW.walkArray, OW.walkPtr, OW.walkMap, OW.walkSlice,
    OW.walkStruct, OW.callCb, hcb]

/-- Witness for C3's amended theorem: a skip at a two-field struct node (a
container) is caught there with one callback invocation and success. -/
theorem c3_witness :
    OW.walkValue OW.New (fun (n : Nat) _ => (n + 1, some .skip)) [] 4
        ⟨⟨.strct 1 0 [.scalar 2 0], false⟩, 0, false, false, false⟩
        (OW.freshState 0) =
      some (⟨1, [],
        [⟨⟨.strct 1 0 [.scalar 2 0], false⟩, 0, false, false, false⟩]⟩, none) :=
  c3_skip_containment.1 Nat OW.New (fun n _ => (n + 1, some .skip)) [] 3
    ⟨⟨.strct 1 0 [.scalar 2 0], false⟩, 0, false, false, false⟩ (OW.freshState 0)
    (by decide) rfl (fun h => absurd rfl h) rfl

/-! ## C8: descriptor-flag invariants of the historical variant -/

/-- The map-role flags of a historical descriptor are mutually exclusive. -/
def ow1FlagOK (i : OW1.WalkInfo) : Prop :=
  ¬(i.IsMapKey = true ∧ i.IsMapValue = true)

/-- Every descriptor recorded in the trace has mutually exclusive map-role
flags. -/
def ow1TraceOK {σ : Type} (st : OW1.WState σ) : Prop :=
  ∀ i ∈ st.trace, ow1FlagOK i

/-- The inline repeat-visit check of the historical `walkValue`, factored out
so the one-step unfolding below can be stated compactly. -/
def ow1LoopDet (visited : List (Addr × TypeId)) (info : OW1.WalkInfo) :
    OW1.WalkInfo × List (Addr × TypeId) :=
  if info.DirectPointer ≠ 0 then
    if (info.DirectPointer, info.value.val.ty) ∈ visited then
      ({ info with IsVisited := true }, visited)
    else (info, (info.DirectPointer, info.value.val.ty) :: visited)
  else (info, visited)

/-- The guard-and-dispatch part of the historical `walkValue` after the
repeat-visit check. -/
def ow1Dispatch {σ : Type} (w : OW1.Walker) (cb : OW1.Cb σ) (heap : Heap)
    (fuel : Nat) (st : OW1.WState σ) (p : OW1.WalkInfo × List (Addr × TypeId)) :
    OW1.Res σ :=
  if p.1.DirectPointer ≠ 0 ∧ p.1.IsVisited ∧ w.LoopProtection = true then
    some ({ st with visited := p.2 }, none)
  else
    match p.1.value.val.kind with
    | .flat => OW1.walkFlat cb p.1 { st with visited := p.2 }
    | .array => OW1.walkArray (OW1.walkValue w cb heap fuel) cb p.1
        { st with visited := p.2 }
    | .chan_ => OW1.walkChan cb p.1 { st with visited := p.2 }
    | .func_ => OW1.walkFunc cb p.1 { st with visited := p.2 }
    | .interface_ => OW1.walkInterface (OW1.walkValue w cb heap fuel) cb heap p.1
        { st with visited := p.2 }
    | .ptr => OW1.walkPtr (OW1.walkValue w cb heap fuel) cb heap p.1
        { st with visited := p.2 }
    | .map_ => OW1.walkMap (OW1.walkValue w cb heap fuel) cb p.1
        { st with visited := p.2 }
    | .slice => OW1.walkSlice (OW1.walkValue w cb heap fuel) cb p.1
        { st with visited := p.2 }
    | .string_ => OW1.walkString cb p.1 { st with visited := p.2 }
    | .struct_ => OW1.walkStruct (OW1.walkValue w cb heap fuel) cb p.1
        { st with visited := p.2 }
    | k => some ({ st with visited := p.2 }, some (.unknownKind k))

/-- One-step unfolding of the historical `walkValue`. -/
theorem ow1_walkValue_succ {σ : Type} (w : OW1.Walker) (cb : OW1.Cb σ)
    (heap : Heap) (fuel : Nat) (info : OW1.WalkInfo) (st : OW1.WState σ) :
    OW1.walkValue w cb heap (fuel + 1) info st =
      ow1Dispatch w cb heap fuel st (ow1LoopDet st.visited info) := rfl

/-- The repeat-visit check does not touch the map-role flags. -/
theorem ow1LoopDet_flags (visited : List (Addr × TypeId)) (info : OW1.WalkInfo) :
    (ow1LoopDet visited info).1.IsMapKey = info.IsMapKey ∧
    (ow1LoopDet visited info).1.IsMapValue = info.IsMapValue ∧
    (ow1LoopDet visited info).1.value = info.value := by
  by_cases h0 : info.DirectPointer ≠ 0
  · by_cases hm : (info.DirectPointer, info.value.val.ty) ∈ visited <;>
      simp [ow1LoopDet, h0, hm]
  · simp [ow1LoopDet, h0]

/-- `runList` of the historical variant preserves any state invariant its
step preserves. -/
theorem ow1_runList_ok {σ α : Type} (P : OW1.WState σ → Prop)
    (step : α → OW1.WState σ → OW1.Res σ)
    (hstep : ∀ a st st' r, P st → step a st = some (st', r) → P st') :
    ∀ (l : List α) (st st' : OW1.WState σ) (r : Option WErr),
      P st → OW1.runList step l st = some (st', r) → P st' := by
  intro l
  induction l with
  | nil =>
    intro st st' r hP hw
    simp only [OW1.runList] at hw
    cases hw
    exact hP
  | cons x xs ih =>
    intro st st' r hP hw
    simp only [OW1.runList] at hw
    rcases hstp : step x st with _ | ⟨st₁, _ | e⟩
    · rw [hstp] at hw
      cases hw
    · rw [hstp] at hw
      exact ih st₁ st' r (hstep x st st₁ none hP hstp) hw
    · rw [hstp] at hw
      have h₃ := hstep x st st₁ (some e) hP hstp
      cases hw
      exact h₃

/-- The historical `callCb` keeps the trace invariant when the descriptor it
records has mutually exclusive map-role flags. -/
theorem ow1_cb_ok {σ : Type} (cb : OW1.Cb σ) (st : OW1.WState σ)
    (info : OW1.WalkInfo) (st₂ : OW1.WState σ) (r₂ : Option WErr)
    (hok : ow1FlagOK info) (hT : ow1TraceOK st)
    (heq : OW1.callCb cb st info = (st₂, r₂)) : ow1TraceOK st₂ := by
  have h : ow1TraceOK (OW1.callCb cb st info).1 := by
    intro i hi
    simp only [OW1.callCb, List.mem_append, List.mem_singleton] at hi
    rcases hi with hi | rfl
    · exact hT i hi
    · exact hok
  rw [heq] at h
  exact h

theorem ow1_flags_aux {σ : Type} (w : OW1.Walker) (cb : OW1.Cb σ) (heap : Heap) :
    ∀ (fuel : Nat) (info : OW1.WalkInfo) (st st' : OW1.WState σ) (r : Option WErr),
      ow1FlagOK info → ow1TraceOK st →
      OW1.walkValue w cb heap fuel info st = some (st', r) → ow1TraceOK st' := by
  intro fuel
  induction fuel with
  | zero =>
    intro info st st' r _ _ hw
    cases hw
  | succ fuel IH =>
    intro info st st' r hF hT hw
    rw [ow1_walkValue_succ] at hw
    rcases hp : ow1LoopDet st.visited info with ⟨info₁, vis₁⟩
    rw [hp] at hw
    have hflags := ow1LoopDet_flags st.visited info
    rw [hp] at hflags
    simp only [] at hflags
    obtain ⟨f1, f2, _⟩ := hflags
    have hF₁ : ow1FlagOK info₁ := by
      intro hc
      exact hF ⟨f1.symm.trans hc.1, f2.symm.trans hc.2⟩
    have hT₁ : ow1TraceOK ({ st with visited := vis₁ } : OW1.WState σ) := hT
    simp only [ow1Dispatch] at hw
    split at hw
    · cases hw
      exact hT₁
    · have hflat : OW1.walkFlat cb info₁ { st with visited := vis₁ } =
          some (st', r) → ow1TraceOK st' := by
        intro hw
        simp only [OW1.walkFlat] at hw
        cases hw
        exact ow1_cb_ok cb _ _ _ _ (by simpa [ow1FlagOK] using hF₁) hT₁ rfl
      have hchan : OW1.walkChan cb info₁ { st with visited := vis₁ } =
          some (st', r) → ow1TraceOK st' := by
        intro hw
        simp only [OW1.walkChan] at hw
        cases hw
        exact ow1_cb_ok cb _ _ _ _ (by simpa [ow1FlagOK] using hF₁) hT₁ rfl
      have hfunc : OW1.walkFunc cb info₁ { st with visited := vis₁ } =
          some (st', r) → ow1TraceOK st' := by
        intro hw
        simp only [OW1.walkFunc] at hw
        cases hw
        exact ow1_cb_ok cb _ _ _ _ (by simpa [ow1FlagOK] using hF₁) hT₁ rfl
      have hstring : OW1.walkString cb info₁ { st with visited := vis₁ } =
          some (st', r) → ow1TraceOK st' := by
        intro hw
        simp only [OW1.walkString] at hw
        cases hw
        refine ow1_cb_ok cb _ _ _ _ ?_ hT₁ rfl
        cases hv : info₁.value.val <;>
          simp only [hv] <;>
          first
            | (split <;> simpa [ow1FlagOK] using hF₁)
            | simpa [ow1FlagOK] using hF₁
      have hptr : ∀ (info₂ : OW1.WalkInfo), ow1FlagOK info₂ →
          OW1.walkPtr (OW1.walkValue w cb heap fuel) cb heap info₂
            { st with visited := vis₁ } = some (st', r) → ow1TraceOK st' := by
        intro info₂ hF₂ hw
        simp only [OW1.walkPtr] at hw
        split at hw
        · rename_i st₂ e heq
          have hT₂ := ow1_cb_ok cb _ _ _ _ hF₂ hT₁ heq
          split at hw <;> (cases hw; exact hT₂)
        · rename_i st₂ heq
          have hT₂ := ow1_cb_ok cb _ _ _ _ hF₂ hT₁ heq
          split at hw
          · cases hw
            exact hT₂
          · rcases hel : ptrElem heap info₂.value.val with _ | elemRef
            · rw [hel] at hw
              simp only [] at hw
              cases hw
              exact hT₂
            · rw [hel] at hw
              simp only [] at hw
              exact IH _ st₂ st' r (by simp [ow1FlagOK, OW1.newWalkerInfo]) hT₂ hw
      have harr : OW1.walkArray (OW1.walkValue w cb heap fuel) cb info₁
          { st with visited := vis₁ } = some (st', r) → ow1TraceOK st' := by
        intro hw
        simp only [OW1.walkArray] at hw
        split at hw
        · rename_i st₂ e heq
          have hT₂ := ow1_cb_ok cb _ _ _ _ hF₁ hT₁ heq
          split at hw <;> (cases hw; exact hT₂)
        · rename_i st₂ heq
          have hT₂ := ow1_cb_ok cb _ _ _ _ hF₁ hT₁ heq
          exact ow1_runList_ok ow1TraceOK _
            (fun a stx stx' rx hTx hxw =>
              IH _ stx stx' rx (by simp [ow1FlagOK, OW1.newWalkerInfo]) hTx hxw)
            _ st₂ st' r hT₂ hw
      have hslice : OW1.walkSlice (OW1.walkValue w cb heap fuel) cb info₁
          { st with visited := vis₁ } = some (st', r) → ow1TraceOK st' := by
        intro hw
        simp only [OW1.walkSlice] at hw
        split at hw
        · rename_i st₂ e heq
          have hT₂ := ow1_cb_ok cb _ _ _ _ (by
            cases hv : info₁.value.val.arrElems.head? <;>
              simpa [ow1FlagOK, hv] using hF₁) hT₁ heq
          split at hw <;> (cases hw; exact hT₂)
        · rename_i st₂ heq
          have hT₂ := ow1_cb_ok cb _ _ _ _ (by
            cases hv : info₁.value.val.arrElems.head? <;>
              simpa [ow1FlagOK, hv] using hF₁) hT₁ heq
          exact ow1_runList_ok ow1TraceOK _
            (fun a stx stx' rx hTx hxw =>
              IH _ stx stx' rx (by simp [ow1FlagOK, OW1.newWalkerInfo]) hTx hxw)
            _ st₂ st' r hT₂ hw
      have hstruct : OW1.walkStruct (OW1.walkValue w cb heap fuel) cb info₁
          { st with visited := vis₁ } = some (st', r) → ow1TraceOK st' := by
        intro hw
        simp only [OW1.walkStruct] at hw
        split at hw
        · rename_i st₂ e heq
          have hT₂ := ow1_cb_ok cb _ _ _ _ hF₁ hT₁ heq
          split at hw <;> (cases hw; exact hT₂)
        · rename_i st₂ heq
          have hT₂ := ow1_cb_ok cb _ _ _ _ hF₁ hT₁ heq
          exact ow1_runList_ok ow1TraceOK _
            (fun a stx stx' rx hTx hxw =>
              IH _ stx stx' rx (by simp [ow1FlagOK, OW1.newWalkerInfo]) hTx hxw)
            _ st₂ st' r hT₂ hw
      have hmap : OW1.walkMap (OW1.walkValue w cb heap fuel) cb info₁
          { st with visited := vis₁ } = some (st', r) → ow1TraceOK st' := by
        intro hw
        simp only [OW1.walkMap] at hw
        split at hw
        · rename_i st₂ e heq
          have hT₂ := ow1_cb_ok cb _ _ _ _ (by simpa [ow1FlagOK] using hF₁) hT₁ heq
          split at hw <;> (cases hw; exact hT₂)
        · rename_i st₂ heq
          have hT₂ := ow1_cb_ok cb _ _ _ _ (by simpa [ow1FlagOK] using hF₁) hT₁ heq
          split at hw
          · cases hw
            exact hT₂
          · refine ow1_runList_ok ow1TraceOK _ ?_ _ st₂ st' r hT₂ hw
            intro kv stx stx' rx hTx hxw
            simp only [] at hxw
            split at hxw
            · exact absurd hxw (by simp)
            · rename_i stk e heq₂
              have hTk := IH _ stx stk _
                (by simp [ow1FlagOK, OW1.newWalkerInfo]) hTx heq₂
              split at hxw <;> (cases hxw; exact hTk)
            · rename_i stk heq₂
              have hTk := IH _ stx stk _
                (by simp [ow1FlagOK, OW1.newWalkerInfo]) hTx heq₂
              exact IH _ stk stx' rx
                (by simp [ow1FlagOK, OW1.newWalkerInfo]) hTk hxw
      rcases hk : info₁.value.val.kind
      all_goals rw [hk] at hw
      all_goals simp only [] at hw
      · cases hw
        exact hT₁
      · exact harr hw
      · simp only [OW1.walkInterface] at hw
        exact hptr _ (by simpa [ow1FlagOK] using hF₁) hw
      · exact hptr _ hF₁ hw
      · exact hmap hw
      · exact hslice hw
      · exact hchan hw
      · exact hfunc hw
      · exact hstring hw
      · exact hflat hw
      · exact hstruct hw
      · cases hw
        exact hT₁

/-- C8: in the historical variant, every descriptor passed to the callback has
at most one of the map-role flags set (never both `IsMapKey` and
`IsMapValue`); map keys and values are flagged exactly (`IsMapKey` only on the
key, `IsMapValue` only on the value); struct fields are flagged
`IsStructField`; and a top-level scalar root is flagged `IsFlat` and walked
with a single callback invocation and no recursion (one fuel level suffices). -/
theorem c8_flag_invariants :
    (∀ (σ : Type) (w : OW1.Walker) (cb : OW1.Cb σ) (heap : Heap) (fuel : Nat)
        (v : Option RVal) (st st' : OW1.WState σ) (r : Option WErr),
      (∀ i ∈ st.trace, ¬(i.IsMapKey = true ∧ i.IsMapValue = true)) →
      OW1.Walk w cb heap fuel v st = some (st', r) →
      ∀ i ∈ st'.trace, ¬(i.IsMapKey = true ∧ i.IsMapValue = true)) ∧
    ((OW1.Walk OW1.New (fun (n : Nat) _ => (n + 1, none)) [] 3
        (some (.mapv 9 0 false [(.scalar 1 0, .scalar 2 0)])) ⟨0, [], []⟩).map
        (fun r => r.1.trace.map (fun i => (i.IsMapKey, i.IsMapValue))) =
      some [(false, false), (true, false), (false, true)]) ∧
    ((OW1.Walk OW1.New (fun (n : Nat) _ => (n + 1, none)) [] 3
        (some (.strct 5 0 [.scalar 6 0, .scalar 7 8])) ⟨0, [], []⟩).map
        (fun r => r.1.trace.map (fun i => (i.IsStructField, i.IsFlat))) =
      some [(false, false), (true, true), (true, true)]) ∧
    ((OW1.Walk OW1.New (fun (n : Nat) _ => (n + 1, none)) [] 1
        (some (.scalar 1 0)) ⟨0, [], []⟩).map
        (fun r => (r.1.trace.map (fun i => i.IsFlat), r.2)) =
      some ([true], none)) := by
  refine ⟨?_, rfl, rfl, rfl⟩
  intro σ w cb heap fuel v st st' r hT hw
  rcases v with _ | rv
  · simp only [OW1.Walk] at hw
    cases hw
    exact hT
  · exact ow1_flags_aux w cb heap fuel _ st st' r
      (by simp [ow1FlagOK, OW1.newWalkerInfo]) hT hw

/-- Witness for C8: the flag invariant instantiated on a concrete
one-entry-map walk. -/
theorem c8_witness :
    ∀ i ∈ (⟨3, [],
        [⟨⟨.mapv 9 0 false [(.scalar 1 0, .scalar 2 0)], false⟩,
          false, false, false, false, false, 48, 0, 0⟩,
         ⟨⟨.scalar 1 0, false⟩, true, true, false, false, false, 0, 0, 0⟩,
         ⟨⟨.scalar 2 0, false⟩, true, false, true, false, false, 0, 0, 0⟩]⟩ :
        OW1.WState Nat).trace,
      ¬(i.IsMapKey = true ∧ i.IsMapValue = true) :=
  c8_flag_invariants.1 Nat OW1.New (fun n _ => (n + 1, none)) [] 3
    (some (.mapv 9 0 false [(.scalar 1 0, .scalar 2 0)])) ⟨0, [], []⟩ _ none
    (by simp) rfl

/-! ## C9: leaf kinds of the historical variant -/

/-- C9 counterexample: a function value's descriptor carries
`InternalStructSize = 0` — `walkFunc` records no size hint — while a channel
value's descriptor carries the table size 96, contradicting the claim that
function nodes carry a fixed internal-header-size hint from the size table. -/
theorem c9_counterexample :
    OW1.Walk OW1.New (fun (n : Nat) _ => (n + 1, none)) [] 1
        (some (.funcv 4 0)) ⟨0, [], []⟩ =
      some (⟨1, [],
        [⟨⟨.funcv 4 0, false⟩, false, false, false, false, false, 0, 0, 0⟩]⟩,
        none) ∧
    (OW1.Walk OW1.New (fun (n : Nat) _ => (n + 1, none)) [] 1
        (some (.chanv 4 0)) ⟨0, [], []⟩).map
        (fun r => r.1.trace.map (fun i => i.InternalStructSize)) =
      some [OW1.chanStructSize] ∧
    OW1.chanStructSize = 96 := by
  exact ⟨rfl, rfl, rfl⟩

/-- C9 (amended): scalars, channels and functions are leaf nodes — walking
them never consumes recursion depth (the result at any positive fuel equals
the result at fuel 1) and invokes the callback exactly once; channel
descriptors carry the `chanStructSize` hint from the size table, function
descriptors carry no size hint (`InternalStructSize` stays 0), scalar roots
are walked with a single callback invocation. -/
theorem c9_leaf_nodes :
    (∀ (σ : Type) (w : OW1.Walker) (cb : OW1.Cb σ) (heap : Heap) (fuel : Nat)
        (info : OW1.WalkInfo) (st : OW1.WState σ),
      (info.value.val.kind = RKind.chan_ ∨ info.value.val.kind = RKind.func_ ∨
        info.value.val.kind = RKind.flat) →
      OW1.walkValue w cb heap (fuel + 1) info st =
        OW1.walkValue w cb heap 1 info st) ∧
    ((OW1.Walk OW1.New (fun (n : Nat) _ => (n + 1, none)) [] 1
        (some (.chanv 3 7)) ⟨0, [], []⟩).map
        (fun r => (r.1.trace.map (fun i => i.InternalStructSize), r.2)) =
      some ([OW1.chanStructSize], none)) ∧
    ((OW1.Walk OW1.New (fun (n : Nat) _ => (n + 1, none)) [] 1
        (some (.funcv 3 7)) ⟨0, [], []⟩).map
        (fun r => (r.1.trace.map (fun i => i.InternalStructSize), r.2)) =
      some ([0], none)) ∧
    ((OW1.Walk OW1.New (fun (n : Nat) _ => (n + 1, none)) [] 1
        (some (.scalar 3 7)) ⟨0, [], []⟩).map
        (fun r => (r.1.trace.length, r.2)) =
      some (1, none)) := by
  refine ⟨?_, rfl, rfl, rfl⟩
  intro σ w cb heap fuel info st hKind
  rw [ow1_walkValue_succ w cb heap fuel info st,
    show OW1.walkValue w cb heap 1 info st =
        ow1Dispatch w cb heap 0 st (ow1LoopDet st.visited info) from
      ow1_walkValue_succ w cb heap 0 info st]
  rcases hp : ow1LoopDet st.visited info with ⟨info₁, vis₁⟩
  have hfl := ow1LoopDet_flags st.visited info
  rw [hp] at hfl
  simp only [] at hfl
  rcases hKind with hk | hk | hk
  all_goals (
    have hk₁ : info₁.value.val.kind = info.value.val.kind := by rw [hfl.2.2]
    simp only [ow1Dispatch]
    rw [hk₁, hk])

/-- Witness for C9's amended theorem: fuel-independence instantiated on a
concrete channel value. -/
theorem c9_witness :
    OW1.walkValue OW1.New (fun (n : Nat) _ => (n + 1, none)) [] (4 + 1)
        (OW1.newWalkerInfo ⟨.chanv 3 7, false⟩) ⟨0, [], []⟩ =
      OW1.walkValue OW1.New (fun (n : Nat) _ => (n + 1, none)) [] 1
        (OW1.newWalkerInfo ⟨.chanv 3 7, false⟩) ⟨0, [], []⟩ :=
  c9_leaf_nodes.1 Nat OW1.New (fun n _ => (n + 1, none)) [] 4
    (OW1.newWalkerInfo ⟨.chanv 3 7, false⟩) ⟨0, [], []⟩ (Or.inl rfl)
